import Mathlib

/-!
Verification of the enrollment / goal-tracking core of `experiments/utils.py`
(django-experiments).  The participant classes (`WebUser`, `DummyUser`,
`AuthenticatedUser`, `SessionUser`) and the resolver `create_user` are embedded
shallowly: the Django ORM rows, the session dict and the experiment counter
store become explicit state threaded through each operation.
-/

/-- Generic association-list lookup with propositional key equality
(first match wins, like a Python dict with unique keys). -/
def mapLookup (l : List (String × String)) (n : String) : Option String :=
  match l with
  | [] => none
  | (k, v) :: t => if k = n then some v else mapLookup t n

/-- Replace the first binding of `n`, or append one: the write of
`enrollments[experiment.name] = (alternative, [])` on a Python dict. -/
def mapSet (l : List (String × String)) (n v : String) : List (String × String) :=
  match l with
  | [] => [(n, v)]
  | (k, w) :: t => if k = n then (n, v) :: t else (k, w) :: mapSet t n v

/-- Counter map: first matching key's value, 0 when absent. -/
def countOf {α : Type} [DecidableEq α] (m : List (α × Nat)) (k : α) : Nat :=
  match m with
  | [] => 0
  | (k', v) :: t => if k' = k then v else countOf t k

/-- Add `c` to the counter at key `k` (insert the key when absent). -/
def bump {α : Type} [DecidableEq α] (m : List (α × Nat)) (k : α) (c : Nat) :
    List (α × Nat) :=
  match m with
  | [] => [(k, c)]
  | (k', v) :: t => if k' = k then (k', v + c) :: t else (k', v) :: bump t k c

/-- Delete every entry whose key satisfies `p`. -/
def removeAll {α : Type} (m : List (α × Nat)) (p : α → Bool) : List (α × Nat) :=
  m.filter (fun e => ! p e.1)

/-- Participant-counter key: (experiment name, alternative, stable id). -/
abbrev PKey := String × String × String

/-- Goal-counter key: (experiment name, alternative, goal name, stable id). -/
abbrev GKey := String × String × String × String

/-- Modelled from the spec: the counter store behind the `Experiment`
collaborator (`experiments.models` is not part of the embedded source).  It
aggregates participant and goal counts keyed by stable id, so that increments
are attributable per participant (§6 of the spec). -/
structure Counters where
  participants : List (PKey × Nat)
  goals : List (GKey × Nat)
deriving DecidableEq

/-- Modelled from the spec: `Experiment.increment_participant_count(variant, stable_id)`. -/
def increment_participant_count (c : Counters) (exp alt sid : String) : Counters :=
  { c with participants := bump c.participants (exp, alt, sid) 1 }

/-- Modelled from the spec: `Experiment.increment_goal_count(variant, goal_name, stable_id, count)`. -/
def increment_goal_count (c : Counters) (exp alt goal sid : String) (count : Nat) :
    Counters :=
  { c with goals := bump c.goals (exp, alt, goal, sid) count }

/-- Modelled from the spec: `Experiment.remove_participant(variant, stable_id)`
removes the participant-count contribution of `stable_id` for the variant and
the goals recorded against it ("Remove the enrollment and any goals the user
has against this experiment"). -/
def remove_participant (c : Counters) (exp alt sid : String) : Counters :=
  { participants := removeAll c.participants (fun k => decide (k = (exp, alt, sid))),
    goals := removeAll c.goals
      (fun k => decide (k.1 = exp) && decide (k.2.1 = alt) && decide (k.2.2.2 = sid)) }

/-- Modelled from the spec: `Experiment.participant_goal_frequencies(variant,
stable_id)` yields the (goal name, count) pairs accumulated for that
participant and variant. -/
def goalFreqList (gl : List (GKey × Nat)) (exp alt sid : String) :
    List (String × Nat) :=
  gl.filterMap (fun e =>
    if e.1.1 = exp ∧ e.1.2.1 = alt ∧ e.1.2.2.2 = sid then some (e.1.2.2.1, e.2)
    else none)

def participant_goal_frequencies (c : Counters) (exp alt sid : String) :
    List (String × Nat) :=
  goalFreqList c.goals exp alt sid

/-- A registered experiment.  `displaying` is `is_displaying_alternatives()`;
`accepting` stands for `is_accepting_new_users(request)` and `randomAlt` for
`random_alternative()` (both opaque collaborator calls, modelled from the spec
as deterministic data). -/
structure Experiment where
  name : String
  displaying : Bool
  accepting : Bool
  randomAlt : String
  alternatives : List String
deriving DecidableEq

/-- `experiment_manager.get(name, None)`. -/
def experimentManagerGet (reg : List Experiment) (n : String) : Option Experiment :=
  match reg with
  | [] => none
  | e :: t => if e.name = n then some e else experimentManagerGet t n

/-- `experiment.ensure_alternative_exists(alternative)` (mutates the cached
experiment object: the registry copy is replaced by the caller). -/
def ensure_alternative_exists (e : Experiment) (alt : String) : Experiment :=
  if alt ∈ e.alternatives then e else { e with alternatives := e.alternatives ++ [alt] }

/-- Write back a mutated experiment object into the registry (same name). -/
def registrySet (reg : List Experiment) (e : Experiment) : List Experiment :=
  reg.map (fun x => if x.name = e.name then e else x)

/-- The transient identity's Django session dict.  `enrollments` is the
`'experiments_enrollments'` key (experiment name ↦ alternative; the goal slot
stored alongside is always the empty list in the source and is elided);
`goals` is `'experiments_goals'` (`[]` standing for an absent key, which the
source treats identically); `verifiedHuman` is `'experiments_verified_human'`
(default `False`); `expSessionKey` caches `'experiments_session_key'`;
`sessionKey` is the backing store's `session_key` (`none` until `save()`), and
`freshKey` is the key `save()` would allocate (modelled from the spec: lazy
session-key materialization). -/
structure Session where
  enrollments : List (String × String)
  goals : List String
  verifiedHuman : Bool
  expSessionKey : Option String
  sessionKey : Option String
  freshKey : String
deriving DecidableEq

/-- Python truthiness of an optional string (`None` and `""` are falsy). -/
def truthy (o : Option String) : Option String :=
  match o with
  | some a => if a = "" then none else some a
  | none => none

/-- The whole mutable world: the experiment registry, the counter store, the
`Enrollment` table rows ((user pk, experiment name) ↦ alternative), the one
transient session under discussion, and `settings.EXPERIMENTS_VERIFY_HUMAN`. -/
structure State where
  registry : List Experiment
  counters : Counters
  db : List ((Nat × String) × String)
  session : Session
  verifyHuman : Bool
deriving DecidableEq

/-- `Enrollment.objects.get(user=.., experiment=..)`, as a lookup. -/
def dbLookup (db : List ((Nat × String) × String)) (pk : Nat) (n : String) :
    Option String :=
  match db with
  | [] => none
  | (k, v) :: t => if k = (pk, n) then some v else dbLookup t pk n

/-- Insert-or-update of the unique `Enrollment` row for (user, experiment). -/
def dbSet (db : List ((Nat × String) × String)) (pk : Nat) (n alt : String) :
    List ((Nat × String) × String) :=
  match db with
  | [] => [((pk, n), alt)]
  | (k, v) :: t => if k = (pk, n) then (k, alt) :: t else (k, v) :: dbSet t pk n alt

/-- Modelled from the spec: `CONTROL_GROUP`, the well-known control variant
name from `experiments.models` (not part of the embedded source). -/
def CONTROL_GROUP : String := "control"

namespace AuthenticatedUser

/-- `AuthenticatedUser._participant_identifier`: `'user:%d' % user.pk`. -/
def participant_identifier (pk : Nat) : String := "user:" ++ Nat.repr pk

/-- `AuthenticatedUser.get_enrollment`. -/
def get_enrollment (st : State) (pk : Nat) (e : Experiment) : Option String :=
  dbLookup st.db pk e.name

/-- `AuthenticatedUser.set_enrollment`.  `raceWinner = some w` models the
concurrent first-insert race: this call's `get` inside `get_or_create` saw no
row, a concurrent request committed the row `w`, and the `create` raises
`IntegrityError`, which is swallowed (`return`).  `raceWinner = none` is the
race-free execution. -/
def set_enrollment (st : State) (pk : Nat) (e : Experiment) (alternative : String)
    (raceWinner : Option String) : State :=
  match dbLookup st.db pk e.name with
  | none =>
    match raceWinner with
    | some w => { st with db := dbSet st.db pk e.name w }
    | none =>
      let st1 := { st with db := dbSet st.db pk e.name alternative }
      let c1 := increment_participant_count st1.counters e.name alternative (participant_identifier pk)
      { st1 with counters := c1 }
  | some cur =>
    let st1 := if cur = alternative then st
      else { st with db := dbSet st.db pk e.name alternative }
    let c1 := increment_participant_count st1.counters e.name alternative (participant_identifier pk)
    { st1 with counters := c1 }

end AuthenticatedUser

namespace SessionUser

/-- `SessionUser._participant_identifier`: lazily materializes the session key
(`session.save()` when `session.session_key` is falsy), caches it under
`'experiments_session_key'`, and returns `'session:<key>'`. -/
def participant_identifier (s : Session) : String × Session :=
  match s.expSessionKey with
  | some k => ("session:" ++ k, s)
  | none =>
    let s1 := match s.sessionKey with
      | some k => if k = "" then { s with sessionKey := some s.freshKey } else s
      | none => { s with sessionKey := some s.freshKey }
    let k := s1.sessionKey.getD s1.freshKey
    ("session:" ++ k, { s1 with expSessionKey := some k })

/-- `SessionUser._is_verified_human`. -/
def is_verified_human (st : State) : Bool :=
  if st.verifyHuman then st.session.verifiedHuman else true

/-- `SessionUser.get_enrollment`. -/
def get_enrollment (s : Session) (e : Experiment) : Option String :=
  mapLookup s.enrollments e.name

/-- `SessionUser.set_enrollment`: store `(alternative, [])` under the
experiment name, then increment the participant counter only when already a
verified human. -/
def set_enrollment (st : State) (e : Experiment) (alternative : String) : State :=
  let st1 := { st with session :=
    { st.session with enrollments := mapSet st.session.enrollments e.name alternative } }
  if is_verified_human st1 then
    let p := participant_identifier st1.session
    { st1 with session := p.2,
               counters := increment_participant_count st1.counters e.name alternative p.1 }
  else st1

/-- `SessionUser.record_goal`: when verified, increment the goal counter for
every enrolled experiment that is displaying alternatives; otherwise append
the goal name to the pending `'experiments_goals'` list (duplicates allowed),
touching no counters. -/
def recordGoalStep (goal_name : String) (count : Nat) (acc : State)
    (p : String × String) : State :=
  match experimentManagerGet acc.registry p.1 with
  | none => acc
  | some e =>
    if e.displaying then
      let q := participant_identifier acc.session
      { acc with session := q.2,
                 counters := increment_goal_count acc.counters e.name p.2 goal_name q.1 count }
    else acc

def record_goal (st : State) (goal_name : String) (count : Nat) : State :=
  if is_verified_human st then
    st.session.enrollments.foldl (recordGoalStep goal_name count) st
  else
    { st with session := { st.session with goals := st.session.goals ++ [goal_name] } }

/-- One iteration of `confirm_human`'s enrollment replay: the deferred
participant-count increment for one yielded (experiment, alternative) pair. -/
def confirmStep (acc : State) (p : String × String) : State :=
  match experimentManagerGet acc.registry p.1 with
  | none => acc
  | some e =>
    let q := participant_identifier acc.session
    { acc with session := q.2,
               counters := increment_participant_count acc.counters e.name p.2 q.1 }

/-- `SessionUser.confirm_human`: no-op when the session flag is already set;
otherwise set it, replay the deferred participant-count increments for every
enrolled experiment, then replay each pending goal through `record_goal`
(default count 1) in order and clear the pending list. -/
def confirm_human (st : State) : State :=
  if st.session.verifiedHuman then st
  else
    let stA := { st with session := { st.session with verifiedHuman := true } }
    let stB := stA.session.enrollments.foldl confirmStep stA
    let stC := stB.session.goals.foldl (fun acc g => record_goal acc g 1) stB
    { stC with session := { stC.session with goals := [] } }

/-- `SessionUser._cancel_enrollment`: when (truthily) enrolled, remove the
participant contribution from the counters and delete the session entry. -/
def cancel_enrollment (st : State) (e : Experiment) : State :=
  match truthy (get_enrollment st.session e) with
  | none => st
  | some alternative =>
    let p := participant_identifier st.session
    { st with
      counters := remove_participant st.counters e.name alternative p.1,
      session := { p.2 with enrollments :=
        p.2.enrollments.filter (fun q => decide (q.1 ≠ e.name)) } }

end SessionUser

namespace DummyUser

def get_enrollment (_e : Experiment) : Option String := none

def set_enrollment (st : State) (_e : Experiment) (_alternative : String) : State := st

def record_goal (st : State) (_goal_name : String) (_count : Nat) : State := st

/-- Inherited `WebUser.confirm_human`, whose body is `pass`. -/
def confirm_human (st : State) : State := st

def cancel_enrollment (st : State) (_e : Experiment) : State := st

/-- `DummyUser.is_enrolled` override. -/
def is_enrolled (st : State) (_experiment_name alternative : String) : Bool × State :=
  (decide (alternative = CONTROL_GROUP), st)

end DummyUser

/-- The two participant capabilities `WebUser.is_enrolled` dispatches on. -/
structure UserOps where
  get_enrollment : State → Experiment → Option String
  set_enrollment : State → Experiment → String → State

/-- `WebUser.is_enrolled(experiment_name, alternative, request)`: registry
lookup, short-circuit to control when absent or not displaying, otherwise
answer from the stored enrollment, enrolling lazily via
`random_alternative()` when accepting new users. -/
def WebUser.is_enrolled (ops : UserOps) (st : State)
    (experiment_name alternative : String) : Bool × State :=
  match experimentManagerGet st.registry experiment_name with
  | some experiment =>
    if experiment.displaying then
      let experiment1 := ensure_alternative_exists experiment alternative
      let st1 := { st with registry := registrySet st.registry experiment1 }
      match truthy (ops.get_enrollment st1 experiment1) with
      | some assigned => (decide (alternative = assigned), st1)
      | none =>
        if experiment1.accepting then
          let chosen := experiment1.randomAlt
          (decide (alternative = chosen), ops.set_enrollment st1 experiment1 chosen)
        else (decide (alternative = CONTROL_GROUP), st1)
    else (decide (alternative = CONTROL_GROUP), st)
  | none => (decide (alternative = CONTROL_GROUP), st)

/-- `AuthenticatedUser`'s capabilities (no concurrent race inside
`is_enrolled`'s own call). -/
def AuthenticatedUser.ops (pk : Nat) : UserOps :=
  { get_enrollment := fun st e => AuthenticatedUser.get_enrollment st pk e,
    set_enrollment := fun st e alt => AuthenticatedUser.set_enrollment st pk e alt none }

def SessionUser.ops : UserOps :=
  { get_enrollment := fun st e => SessionUser.get_enrollment st.session e,
    set_enrollment := fun st e alt => SessionUser.set_enrollment st e alt }

def AuthenticatedUser.is_enrolled (st : State) (pk : Nat)
    (experiment_name alternative : String) : Bool × State :=
  WebUser.is_enrolled (AuthenticatedUser.ops pk) st experiment_name alternative

def SessionUser.is_enrolled (st : State)
    (experiment_name alternative : String) : Bool × State :=
  WebUser.is_enrolled SessionUser.ops st experiment_name alternative

/-- One goal-count transfer of `incorporate`: add one (goal, count) pair read
from the transient identity's frequencies to the durable identity's counter. -/
def WebUser.transferGoal (expName alt : String) (pk : Nat) (acc : State)
    (gc : String × Nat) : State :=
  let c1 := increment_goal_count acc.counters expName alt gc.1
    (AuthenticatedUser.participant_identifier pk) gc.2
  { acc with counters := c1 }

/-- The adoption path of `incorporate`: `set_enrollment` on the durable
identity, then transfer the transient identity's accumulated goal counts for
the (experiment, alternative) pair to the durable stable id. -/
def WebUser.incorporateAdopt (st : State) (pk : Nat) (experiment : Experiment)
    (alt : String) : State :=
  let sA := AuthenticatedUser.set_enrollment st pk experiment alt none
  let p := SessionUser.participant_identifier sA.session
  let sB := { sA with session := p.2 }
  let freqs := participant_goal_frequencies sB.counters experiment.name alt p.1
  freqs.foldl (WebUser.transferGoal experiment.name alt pk) sB

/-- One iteration of `WebUser.incorporate`'s loop for the durable(authenticated)
← transient(session) merge: the body run for the yielded pair `(n, alt)`;
names absent from the registry are never yielded by
`SessionUser._get_all_enrollments`, so nothing (not even the cancel) runs for
them. -/
def WebUser.incorporateVisit (st : State) (pk : Nat) (n alt : String) : State :=
  match experimentManagerGet st.registry n with
  | none => st
  | some experiment =>
    let st1 :=
      match truthy (AuthenticatedUser.get_enrollment st pk experiment) with
      | some _ => st
      | none => WebUser.incorporateAdopt st pk experiment alt
    SessionUser.cancel_enrollment st1 experiment

/-- `WebUser.incorporate(other_user)` for a durable identity `pk` absorbing
the transient session identity: Python 2's `dict.items()` snapshots the
enrollment list before the loop body runs. -/
def WebUser.incorporate (st : State) (pk : Nat) : State :=
  st.session.enrollments.foldl (fun acc p => WebUser.incorporateVisit acc pk p.1 p.2) st

/-- `user.is_authenticated()` handle. -/
structure UserHandle where
  pk : Nat
  authenticated : Bool
deriving DecidableEq

/-- The request context `create_user` classifies: an optional user attribute,
whether a session attribute is present, and the `HTTP_USER_AGENT` header
(default `""`). -/
structure Request where
  user : Option UserHandle
  hasSession : Bool
  userAgent : String
deriving DecidableEq

/-- The resolved participant kind. -/
inductive Participant where
  | dummy
  | authenticated (u : UserHandle)
  | transientUser
deriving DecidableEq

/-- The literal alternatives of `BOT_REGEX`. -/
def BOT_NAMES : List String :=
  ["Baidu", "Gigabot", "Googlebot", "YandexBot", "AhrefsBot", "TVersity",
   "libwww-perl", "Yeti", "lwp-trivial", "msnbot", "bingbot",
   "facebookexternalhit", "Twitterbot", "Twitmunin", "SiteUptime",
   "TwitterFeed", "Slurp", "WordPress", "ZIBB", "ZyBorg"]

/-- Substring occurrence of `p` in `t`. -/
def containsSub {α : Type} [BEq α] (p : List α) : List α → Bool
  | [] => p.isEmpty
  | c :: t => p.isPrefixOf (c :: t) || containsSub p t

/-- ASCII case folding on character codes (the `re.IGNORECASE` flag; the bot
names are plain ASCII). -/
def lowerCode (c : Char) : Nat :=
  if 65 ≤ c.toNat ∧ c.toNat ≤ 90 then c.toNat + 32 else c.toNat

/-- `BOT_REGEX.search(ua)`: the regex is an alternation of literal bot names
matched case-insensitively anywhere in the user agent. -/
def botMatch (ua : String) : Bool :=
  BOT_NAMES.any (fun b => containsSub (b.data.map lowerCode) (ua.data.map lowerCode))

/-- `create_user(request, session, user)`: fill `user`/`session` from the
request, then classify bot / authenticated / session-backed / dummy. -/
def create_user (request : Option Request) (sessionGiven : Bool)
    (userGiven : Option UserHandle) : Participant :=
  let user := match userGiven, request with
    | some u, _ => some u
    | none, some r => r.user
    | none, none => none
  let hasSession := sessionGiven || (match request with
    | some r => r.hasSession
    | none => false)
  let isBot := match request with
    | some r => botMatch r.userAgent
    | none => false
  if isBot then .dummy
  else match user with
    | some u =>
      if u.authenticated then .authenticated u
      else if hasSession then .transientUser else .dummy
    | none => if hasSession then .transientUser else .dummy

/-! ### Map and counter lemmas -/

theorem countOf_bump_self {α : Type} [DecidableEq α] (m : List (α × Nat)) (k : α)
    (c : Nat) : countOf (bump m k c) k = countOf m k + c := by
  induction m with
  | nil => simp [bump, countOf]
  | cons e t ih =>
    obtain ⟨k', v⟩ := e
    by_cases h : k' = k
    · subst h; simp [bump, countOf]
    · simp [bump, countOf, h, ih]

theorem countOf_bump_ne {α : Type} [DecidableEq α] (m : List (α × Nat)) {k k' : α}
    (c : Nat) (h : k' ≠ k) : countOf (bump m k c) k' = countOf m k' := by
  induction m with
  | nil => simp [bump, countOf, Ne.symm h]
  | cons e t ih =>
    obtain ⟨k0, v⟩ := e
    by_cases h0 : k0 = k
    · subst h0; simp [bump, countOf, Ne.symm h]
    · simp [bump, countOf, h0, ih]

theorem countOf_removeAll_of_not {α : Type} [DecidableEq α] (m : List (α × Nat))
    (p : α → Bool) (k : α) (h : p k = false) :
    countOf (removeAll m p) k = countOf m k := by
  induction m with
  | nil => simp [removeAll, countOf]
  | cons e t ih =>
    obtain ⟨k0, v⟩ := e
    by_cases h0 : k0 = k
    · subst h0
      simp [removeAll, List.filter, h, countOf] at ih ⊢
    · by_cases hp : p k0
      · simp [removeAll, List.filter, hp, countOf, h0] at ih ⊢; exact ih
      · simp [removeAll, List.filter, hp, countOf, h0] at ih ⊢; exact ih

theorem countOf_removeAll_of {α : Type} [DecidableEq α] (m : List (α × Nat))
    (p : α → Bool) (k : α) (h : p k = true) :
    countOf (removeAll m p) k = 0 := by
  induction m with
  | nil => simp [removeAll, countOf]
  | cons e t ih =>
    obtain ⟨k0, v⟩ := e
    by_cases h0 : k0 = k
    · subst h0
      simp [removeAll, List.filter, h, countOf] at ih ⊢; exact ih
    · by_cases hp : p k0
      · simp [removeAll, List.filter, hp, countOf, h0] at ih ⊢; exact ih
      · simp [removeAll, List.filter, hp, countOf, h0] at ih ⊢; exact ih

theorem countOf_eq_zero_of_not_mem {α : Type} [DecidableEq α] (m : List (α × Nat))
    (k : α) (h : k ∉ m.map Prod.fst) : countOf m k = 0 := by
  induction m with
  | nil => simp [countOf]
  | cons e t ih =>
    simp only [List.map_cons, List.mem_cons] at h
    push_neg at h
    simp [countOf, Ne.symm h.1, ih h.2]

theorem keys_bump {α : Type} [DecidableEq α] (m : List (α × Nat)) (k : α)
    (c : Nat) : (bump m k c).map Prod.fst =
      if k ∈ m.map Prod.fst then m.map Prod.fst else m.map Prod.fst ++ [k] := by
  induction m with
  | nil => simp [bump]
  | cons e t ih =>
    obtain ⟨k0, v⟩ := e
    by_cases h0 : k0 = k
    · subst h0; simp [bump]
    · by_cases hm : k ∈ t.map Prod.fst
      · simp [bump, h0, ih, hm, Ne.symm h0]
      · simp [bump, h0, ih, hm, Ne.symm h0]

theorem nodup_keys_bump {α : Type} [DecidableEq α] (m : List (α × Nat)) (k : α)
    (c : Nat) (h : (m.map Prod.fst).Nodup) : ((bump m k c).map Prod.fst).Nodup := by
  rw [keys_bump]
  by_cases hm : k ∈ m.map Prod.fst
  · simpa [hm] using h
  · simp [hm, List.nodup_append, h]

theorem nodup_keys_removeAll {α : Type} [DecidableEq α] (m : List (α × Nat))
    (p : α → Bool) (h : (m.map Prod.fst).Nodup) :
    ((removeAll m p).map Prod.fst).Nodup := by
  refine List.Nodup.sublist ?_ h
  exact List.Sublist.map Prod.fst (List.filter_sublist m)

theorem dbLookup_dbSet_self (db : List ((Nat × String) × String)) (pk : Nat)
    (n alt : String) : dbLookup (dbSet db pk n alt) pk n = some alt := by
  induction db with
  | nil => simp [dbSet, dbLookup]
  | cons e t ih =>
    obtain ⟨k, v⟩ := e
    by_cases h : k = (pk, n)
    · subst h; simp [dbSet, dbLookup]
    · simp [dbSet, dbLookup, h, ih]

theorem dbLookup_dbSet_ne (db : List ((Nat × String) × String)) {pk pk' : Nat}
    {n n' : String} (alt : String) (h : (pk', n') ≠ (pk, n)) :
    dbLookup (dbSet db pk n alt) pk' n' = dbLookup db pk' n' := by
  induction db with
  | nil => simp [dbSet, dbLookup, Ne.symm h]
  | cons e t ih =>
    obtain ⟨k, v⟩ := e
    by_cases h0 : k = (pk, n)
    · subst h0; simp [dbSet, dbLookup, Ne.symm h]
    · simp [dbSet, dbLookup, h0, ih]

theorem mapLookup_mapSet_self (l : List (String × String)) (n v : String) :
    mapLookup (mapSet l n v) n = some v := by
  induction l with
  | nil => simp [mapSet, mapLookup]
  | cons e t ih =>
    obtain ⟨k, w⟩ := e
    by_cases h : k = n
    · subst h; simp [mapSet, mapLookup]
    · simp [mapSet, mapLookup, h, ih]

theorem mapLookup_mapSet_ne (l : List (String × String)) {n m : String} (v : String)
    (h : m ≠ n) : mapLookup (mapSet l n v) m = mapLookup l m := by
  induction l with
  | nil => simp [mapSet, mapLookup, Ne.symm h]
  | cons e t ih =>
    obtain ⟨k, w⟩ := e
    by_cases h0 : k = n
    · subst h0; simp [mapSet, mapLookup, Ne.symm h, h]
    · simp [mapSet, mapLookup, h0, ih]

theorem mapLookup_filterOut_self (l : List (String × String)) (n : String) :
    mapLookup (l.filter (fun q => decide (q.1 ≠ n))) n = none := by
  simp only [ne_eq, decide_not]
  induction l with
  | nil => simp [mapLookup]
  | cons e t ih =>
    obtain ⟨k, w⟩ := e
    simp only [List.filter_cons]
    by_cases h : k = n
    · subst h; simp [ih]
    · simp [h, mapLookup, ih]

theorem mapLookup_filterOut_ne (l : List (String × String)) {n m : String}
    (h : m ≠ n) : mapLookup (l.filter (fun q => decide (q.1 ≠ n))) m = mapLookup l m := by
  simp only [ne_eq, decide_not]
  induction l with
  | nil => simp [mapLookup]
  | cons e t ih =>
    obtain ⟨k, w⟩ := e
    simp only [List.filter_cons]
    by_cases h0 : k = n
    · subst h0; simp [mapLookup, Ne.symm h, ih]
    · simp [h0, mapLookup, ih]

/-! ### Goal-frequency transfer lemmas -/

/-- Total count recorded for goal `g` in a frequency list. -/
def sumCount (l : List (String × Nat)) (g : String) : Nat :=
  match l with
  | [] => 0
  | (g', c) :: t => (if g' = g then c else 0) + sumCount t g

theorem sumCount_goalFreqList (gl : List (GKey × Nat)) (exp alt sid g : String)
    (hnd : (gl.map Prod.fst).Nodup) :
    sumCount (goalFreqList gl exp alt sid) g = countOf gl (exp, alt, g, sid) := by
  induction gl with
  | nil => simp [goalFreqList, sumCount, countOf]
  | cons e t ih =>
    obtain ⟨⟨ke, ka, kg, ks⟩, v⟩ := e
    simp only [List.map_cons, List.nodup_cons] at hnd
    have ihe := ih hnd.2
    simp only [goalFreqList, List.filterMap_cons] at ihe ⊢
    by_cases hm : ke = exp ∧ ka = alt ∧ ks = sid
    · obtain ⟨rfl, rfl, rfl⟩ := hm
      rw [if_pos ⟨rfl, rfl, rfl⟩]
      by_cases hg : kg = g
      · subst hg
        have hz : countOf t (ke, ka, kg, ks) = 0 :=
          countOf_eq_zero_of_not_mem t _ hnd.1
        simp [sumCount, countOf, ihe, hz]
      · have hk : ((ke, ka, kg, ks) : GKey) ≠ (ke, ka, g, ks) := by
          simp only [ne_eq, Prod.mk.injEq]; tauto
        simp [sumCount, countOf, hg, hk, ihe]
    · rw [if_neg hm]
      have hk : ((ke, ka, kg, ks) : GKey) ≠ (exp, alt, g, sid) := by
        simp only [ne_eq, Prod.mk.injEq]; tauto
      simp [countOf, hk, ihe]

/-- Folding the frequency transfer of `incorporate` over the frequency list
adds, at every goal key under the receiving stable id, exactly the total count
that list holds for that goal. -/
theorem countOf_transfer_fold (F : List (String × Nat)) (g0 : List (GKey × Nat))
    (exp alt uid g : String) :
    countOf (F.foldl (fun acc gc => bump acc (exp, alt, gc.1, uid) gc.2) g0)
        (exp, alt, g, uid)
      = countOf g0 (exp, alt, g, uid) + sumCount F g := by
  induction F generalizing g0 with
  | nil => simp [sumCount]
  | cons e t ih =>
    obtain ⟨g', c⟩ := e
    simp only [List.foldl_cons, ih, sumCount]
    by_cases hg : g' = g
    · subst hg; rw [countOf_bump_self]; simp; omega
    · rw [countOf_bump_ne _ _ (by simp only [ne_eq, Prod.mk.injEq]; tauto)]
      simp [hg]

/-- The transfer fold leaves every goal key with a different experiment,
alternative or stable id unchanged. -/
theorem countOf_transfer_fold_ne (F : List (String × Nat)) (g0 : List (GKey × Nat))
    (exp alt uid : String) (K : GKey)
    (h : K.1 ≠ exp ∨ K.2.1 ≠ alt ∨ K.2.2.2 ≠ uid) :
    countOf (F.foldl (fun acc gc => bump acc (exp, alt, gc.1, uid) gc.2) g0) K
      = countOf g0 K := by
  induction F generalizing g0 with
  | nil => simp
  | cons e t ih =>
    simp only [List.foldl_cons, ih]
    refine countOf_bump_ne _ _ ?_
    obtain ⟨k1, k2, k3, k4⟩ := K
    simp only [ne_eq, Prod.mk.injEq] at h ⊢
    tauto

/-- The transfer fold preserves nodup goal keys. -/
theorem nodup_transfer_fold (F : List (String × Nat)) (g0 : List (GKey × Nat))
    (exp alt uid : String) (h : (g0.map Prod.fst).Nodup) :
    ((F.foldl (fun acc gc => bump acc (exp, alt, gc.1, uid) gc.2) g0).map Prod.fst).Nodup := by
  induction F generalizing g0 with
  | nil => simpa
  | cons e t ih => exact ih _ (nodup_keys_bump _ _ _ h)

/-! ### Participant-identifier lemmas -/

/-- Once `'experiments_session_key'` is cached, `_participant_identifier` is a
pure read. -/
theorem participant_identifier_materialized (s : Session) (k : String)
    (h : s.expSessionKey = some k) :
    SessionUser.participant_identifier s = ("session:" ++ k, s) := by
  simp [SessionUser.participant_identifier, h]

/-- `_participant_identifier` always caches the key it returns: the resulting
session has `'experiments_session_key'` set, and the returned stable id is
`"session:" ++` that key. -/
theorem participant_identifier_caches (s : Session) :
    ∃ k, (SessionUser.participant_identifier s).2.expSessionKey = some k ∧
      (SessionUser.participant_identifier s).1 = "session:" ++ k := by
  unfold SessionUser.participant_identifier
  match hk : s.expSessionKey with
  | some k => exact ⟨k, by simp [hk]⟩
  | none =>
    match hs : s.sessionKey with
    | some k0 =>
      by_cases h0 : k0 = ""
      · exact ⟨s.freshKey, by simp [hk, hs, h0]⟩
      · exact ⟨k0, by simp [hk, hs, h0]⟩
    | none => exact ⟨s.freshKey, by simp [hk, hs]⟩

/-- Decimal string decoding used to invert `Nat.repr`. -/
def decodeDigits : List Char → Nat → Nat
  | [], a => a
  | c :: t, a => decodeDigits t (a * 10 + (c.toNat - 48))

/-- Number of decimal digits. -/
def digitCount (n : Nat) : Nat :=
  if n < 10 then 1 else digitCount (n / 10) + 1
decreasing_by exact Nat.div_lt_self (by omega) (by omega)

theorem digitChar_val (n : Nat) (h : n < 10) : (Nat.digitChar n).toNat - 48 = n := by
  interval_cases n <;> rfl

theorem toDigitsCore_decode : ∀ (fuel n : Nat) (ds : List Char) (a : Nat), n < fuel →
    decodeDigits (Nat.toDigitsCore 10 fuel n ds) a
      = decodeDigits ds (a * 10 ^ digitCount n + n) := by
  intro fuel
  induction fuel with
  | zero => intro n ds a h; exact absurd h (Nat.not_lt_zero n)
  | succ fuel ih =>
    intro n ds a h
    by_cases h10 : n / 10 = 0
    · have hn : n < 10 := by omega
      have hc : digitCount n = 1 := by unfold digitCount; simp [hn]
      simp only [Nat.toDigitsCore, h10, if_pos rfl, reduceIte]
      simp only [decodeDigits, hc, pow_one]
      rw [digitChar_val (n % 10) (by omega)]
      congr 1
      omega
    · have hlt : n / 10 < fuel := by omega
      have hc : digitCount n = digitCount (n / 10) + 1 := by
        conv_lhs => unfold digitCount
        simp only [if_neg (by omega : ¬ n < 10)]
      simp only [Nat.toDigitsCore, h10, reduceIte]
      rw [ih (n / 10) _ a hlt]
      simp only [decodeDigits, hc]
      rw [digitChar_val (n % 10) (by omega)]
      congr 1
      rw [pow_succ, ← mul_assoc]
      generalize a * 10 ^ digitCount (n / 10) = y
      omega

theorem decode_repr (n : Nat) : decodeDigits (Nat.repr n).data 0 = n := by
  have h : (Nat.repr n).data = Nat.toDigitsCore 10 (n + 1) n [] := rfl
  rw [h, toDigitsCore_decode (n + 1) n [] 0 (Nat.lt_succ_self n)]
  simp [decodeDigits]

theorem nat_repr_inj {m n : Nat} (h : Nat.repr m = Nat.repr n) : m = n := by
  rw [← decode_repr m, ← decode_repr n, h]

theorem user_id_inj {pk1 pk2 : Nat} (h : pk1 ≠ pk2) :
    AuthenticatedUser.participant_identifier pk1 ≠
      AuthenticatedUser.participant_identifier pk2 := by
  intro hc
  apply h
  apply nat_repr_inj
  have hd := congrArg String.data hc
  simp only [AuthenticatedUser.participant_identifier, String.data_append] at hd
  exact String.ext (List.append_cancel_left hd)

/-- A durable stable id never collides with a transient one. -/
theorem user_id_ne_session_id (x y : String) :
    "user:" ++ x ≠ "session:" ++ y := by
  intro hc
  have hd := congrArg String.data hc
  simp only [String.data_append] at hd
  simp at hd

/-! ### Registry lemmas -/

theorem experimentManagerGet_name (reg : List Experiment) (n : String)
    (e : Experiment) (h : experimentManagerGet reg n = some e) : e.name = n := by
  induction reg with
  | nil => simp [experimentManagerGet] at h
  | cons x t ih =>
    by_cases hx : x.name = n
    · simp only [experimentManagerGet, if_pos hx] at h
      cases h; exact hx
    · simp only [experimentManagerGet, if_neg hx] at h
      exact ih h

theorem experimentManagerGet_registrySet (reg : List Experiment) (n : String)
    (e e1 : Experiment) (h : experimentManagerGet reg n = some e)
    (hname : e1.name = e.name) :
    experimentManagerGet (registrySet reg e1) n = some e1 := by
  have hen : e.name = n := experimentManagerGet_name reg n e h
  induction reg with
  | nil => simp [experimentManagerGet] at h
  | cons x t ih =>
    by_cases hx : x.name = n
    · simp only [experimentManagerGet, if_pos hx] at h
      cases h
      simp [registrySet, experimentManagerGet, hname, hen, hx]
    · have hxn : x.name ≠ e1.name := by rw [hname, hen]; exact hx
      simp only [experimentManagerGet, if_neg hx] at h
      simp only [registrySet, List.map_cons, if_neg hxn, experimentManagerGet, if_neg hx]
      exact ih h

theorem ensure_name (e : Experiment) (v : String) :
    (ensure_alternative_exists e v).name = e.name := by
  unfold ensure_alternative_exists; split <;> rfl

theorem ensure_displaying (e : Experiment) (v : String) :
    (ensure_alternative_exists e v).displaying = e.displaying := by
  unfold ensure_alternative_exists; split <;> rfl

theorem ensure_accepting (e : Experiment) (v : String) :
    (ensure_alternative_exists e v).accepting = e.accepting := by
  unfold ensure_alternative_exists; split <;> rfl

/-! ### Claim C3 -/

/-- C3: for every identity kind (bot/dummy, authenticated, session-backed) and
every candidate variant `v`, when the named experiment is absent from the
registry or not displaying alternatives, `is_enrolled` returns `true` iff `v`
is the control-group variant, and the state (hence any stored enrollment) is
completely unchanged by the call. -/
theorem c3_short_circuit_control (st : State) (pk : Nat)
    (experiment_name v : String)
    (h : ∀ e, experimentManagerGet st.registry experiment_name = some e →
      e.displaying = false) :
    DummyUser.is_enrolled st experiment_name v = (decide (v = CONTROL_GROUP), st) ∧
    AuthenticatedUser.is_enrolled st pk experiment_name v =
      (decide (v = CONTROL_GROUP), st) ∧
    SessionUser.is_enrolled st experiment_name v = (decide (v = CONTROL_GROUP), st) := by
  refine ⟨rfl, ?_, ?_⟩
  · unfold AuthenticatedUser.is_enrolled WebUser.is_enrolled
    match hreg : experimentManagerGet st.registry experiment_name with
    | none => simp
    | some e => simp [h e hreg]
  · unfold SessionUser.is_enrolled WebUser.is_enrolled
    match hreg : experimentManagerGet st.registry experiment_name with
    | none => simp
    | some e => simp [h e hreg]

/-! ### Claim C4 -/

/-- C4: for a durable identity's `set_enrollment`, the loser of a concurrent
first-insert race (uniqueness-constraint conflict) returns leaving the
winner's stored variant intact and performing no participant-counter
increment — the only difference from the pre-call state is the winner's own
committed row — whereas a non-conflicting explicit re-enrollment with a
different variant overwrites the stored variant and then increments the
participant counter. -/
theorem c4_insert_race_vs_reenrollment (st : State) (pk : Nat) (e : Experiment)
    (alt w cur : String) :
    (dbLookup st.db pk e.name = none →
      (AuthenticatedUser.set_enrollment st pk e alt (some w)).counters = st.counters ∧
      (AuthenticatedUser.set_enrollment st pk e alt (some w)).session = st.session ∧
      (AuthenticatedUser.set_enrollment st pk e alt (some w)).registry = st.registry ∧
      dbLookup (AuthenticatedUser.set_enrollment st pk e alt (some w)).db pk e.name
        = some w ∧
      (∀ pk2 m, (pk2, m) ≠ (pk, e.name) →
        dbLookup (AuthenticatedUser.set_enrollment st pk e alt (some w)).db pk2 m
          = dbLookup st.db pk2 m)) ∧
    (dbLookup st.db pk e.name = some cur → cur ≠ alt →
      dbLookup (AuthenticatedUser.set_enrollment st pk e alt none).db pk e.name
        = some alt ∧
      countOf (AuthenticatedUser.set_enrollment st pk e alt none).counters.participants
          (e.name, alt, AuthenticatedUser.participant_identifier pk)
        = countOf st.counters.participants
            (e.name, alt, AuthenticatedUser.participant_identifier pk) + 1) := by
  constructor
  · intro hnone
    unfold AuthenticatedUser.set_enrollment
    rw [hnone]
    exact ⟨rfl, rfl, rfl, dbLookup_dbSet_self .., fun pk2 m hm => dbLookup_dbSet_ne _ _ hm⟩
  · intro hcur hne
    unfold AuthenticatedUser.set_enrollment
    rw [hcur]
    simp only [if_neg hne]
    refine ⟨dbLookup_dbSet_self .., ?_⟩
    simp only [increment_participant_count]
    exact countOf_bump_self ..

/-! ### Claim C5 -/

/-- Effect of `is_enrolled` for an already-enrolled authenticated identity:
answer relative to the stored variant, only the registry's alternative list
changes. -/
theorem is_enrolled_auth_enrolled (st : State) (pk : Nat) (nm v a : String)
    (e : Experiment) (hreg : experimentManagerGet st.registry nm = some e)
    (hdisp : e.displaying = true) (ha : dbLookup st.db pk nm = some a)
    (hne : a ≠ "") :
    (AuthenticatedUser.is_enrolled st pk nm v).1 = decide (v = a) ∧
    (AuthenticatedUser.is_enrolled st pk nm v).2.db = st.db ∧
    (AuthenticatedUser.is_enrolled st pk nm v).2.session = st.session ∧
    (AuthenticatedUser.is_enrolled st pk nm v).2.counters = st.counters ∧
    experimentManagerGet (AuthenticatedUser.is_enrolled st pk nm v).2.registry nm
      = some (ensure_alternative_exists e v) := by
  have hen : e.name = nm := experimentManagerGet_name _ _ _ hreg
  unfold AuthenticatedUser.is_enrolled WebUser.is_enrolled
  rw [hreg]
  simp only [hdisp, reduceIte]
  simp only [AuthenticatedUser.ops, AuthenticatedUser.get_enrollment,
    ensure_name, hen, ha, truthy, if_neg hne]
  exact ⟨trivial, trivial, trivial, trivial,
    experimentManagerGet_registrySet _ _ _ _ hreg (ensure_name e v)⟩

/-- Effect of `is_enrolled` for an already-enrolled session identity. -/
theorem is_enrolled_session_enrolled (st : State) (nm v a : String)
    (e : Experiment) (hreg : experimentManagerGet st.registry nm = some e)
    (hdisp : e.displaying = true)
    (ha : mapLookup st.session.enrollments nm = some a) (hne : a ≠ "") :
    (SessionUser.is_enrolled st nm v).1 = decide (v = a) ∧
    (SessionUser.is_enrolled st nm v).2.db = st.db ∧
    (SessionUser.is_enrolled st nm v).2.session = st.session ∧
    (SessionUser.is_enrolled st nm v).2.counters = st.counters ∧
    experimentManagerGet (SessionUser.is_enrolled st nm v).2.registry nm
      = some (ensure_alternative_exists e v) := by
  have hen : e.name = nm := experimentManagerGet_name _ _ _ hreg
  unfold SessionUser.is_enrolled WebUser.is_enrolled
  rw [hreg]
  simp only [hdisp, reduceIte]
  simp only [SessionUser.ops, SessionUser.get_enrollment,
    ensure_name, hen, ha, truthy, if_neg hne]
  exact ⟨trivial, trivial, trivial, trivial,
    experimentManagerGet_registrySet _ _ _ _ hreg (ensure_name e v)⟩

/-- C5: for an identity already enrolled (with a non-empty stored variant) in
an experiment that is displaying alternatives, `is_enrolled` answers relative
to the one stored variant — the candidate never changes the assignment — and
two successive calls with the same candidate return the same boolean with the
stored enrollment unchanged between the calls.  Stated for the two identity
kinds that can hold enrollments (authenticated and session-backed). -/
theorem c5_is_enrolled_stable (st : State) (pk : Nat) (nm v a : String)
    (e : Experiment) (hreg : experimentManagerGet st.registry nm = some e)
    (hdisp : e.displaying = true) (hne : a ≠ "") :
    (dbLookup st.db pk nm = some a →
      (AuthenticatedUser.is_enrolled st pk nm v).1 = decide (v = a) ∧
      dbLookup (AuthenticatedUser.is_enrolled st pk nm v).2.db pk nm = some a ∧
      (AuthenticatedUser.is_enrolled
          (AuthenticatedUser.is_enrolled st pk nm v).2 pk nm v).1 = decide (v = a) ∧
      dbLookup (AuthenticatedUser.is_enrolled
          (AuthenticatedUser.is_enrolled st pk nm v).2 pk nm v).2.db pk nm = some a) ∧
    (mapLookup st.session.enrollments nm = some a →
      (SessionUser.is_enrolled st nm v).1 = decide (v = a) ∧
      mapLookup (SessionUser.is_enrolled st nm v).2.session.enrollments nm = some a ∧
      (SessionUser.is_enrolled (SessionUser.is_enrolled st nm v).2 nm v).1
        = decide (v = a) ∧
      mapLookup (SessionUser.is_enrolled
          (SessionUser.is_enrolled st nm v).2 nm v).2.session.enrollments nm
        = some a) := by
  constructor
  · intro ha
    obtain ⟨r1, rdb, -, -, rreg⟩ :=
      is_enrolled_auth_enrolled st pk nm v a e hreg hdisp ha hne
    have hdisp2 : (ensure_alternative_exists e v).displaying = true := by
      rw [ensure_displaying]; exact hdisp
    have ha2 : dbLookup (AuthenticatedUser.is_enrolled st pk nm v).2.db pk nm
        = some a := by rw [rdb]; exact ha
    obtain ⟨r2, rdb2, -, -, -⟩ :=
      is_enrolled_auth_enrolled (AuthenticatedUser.is_enrolled st pk nm v).2 pk nm v a
        (ensure_alternative_exists e v) rreg hdisp2 ha2 hne
    refine ⟨r1, ha2, r2, ?_⟩
    rw [rdb2]; exact ha2
  · intro ha
    obtain ⟨r1, -, rs, -, rreg⟩ :=
      is_enrolled_session_enrolled st nm v a e hreg hdisp ha hne
    have hdisp2 : (ensure_alternative_exists e v).displaying = true := by
      rw [ensure_displaying]; exact hdisp
    have ha2 : mapLookup (SessionUser.is_enrolled st nm v).2.session.enrollments nm
        = some a := by rw [rs]; exact ha
    obtain ⟨r2, -, rs2, -, -⟩ :=
      is_enrolled_session_enrolled (SessionUser.is_enrolled st nm v).2 nm v a
        (ensure_alternative_exists e v) rreg hdisp2 ha2 hne
    refine ⟨r1, ha2, r2, ?_⟩
    rw [rs2]; exact ha2

/-! ### Claim C7 -/

/-- C7: a request whose user agent matches the bot signature set resolves to
the null participant (`DummyUser`), whose mutating operations change no state,
whose `get_enrollment` is always `none`, and whose `is_enrolled` is true
exactly for the control-group variant. -/
theorem c7_bot_null_participant (st : State) (r : Request) (sessionGiven : Bool)
    (userGiven : Option UserHandle) (e : Experiment) (alt g nm v : String) (c : Nat)
    (hbot : botMatch r.userAgent = true) :
    create_user (some r) sessionGiven userGiven = Participant.dummy ∧
    DummyUser.set_enrollment st e alt = st ∧
    DummyUser.record_goal st g c = st ∧
    DummyUser.confirm_human st = st ∧
    DummyUser.cancel_enrollment st e = st ∧
    DummyUser.get_enrollment e = none ∧
    DummyUser.is_enrolled st nm v = (decide (v = CONTROL_GROUP), st) := by
  refine ⟨?_, rfl, rfl, rfl, rfl, rfl, rfl⟩
  unfold create_user
  simp [hbot]

/-! ### Claim C8 -/

/-- C8: durable stable ids have the form `"user:<pk>"` and are injective over
distinct primary keys; a transient identity's stable id has the form
`"session:<key>"`, and once the session key is materialized and cached every
later `_participant_identifier()` call returns the same string and leaves the
session unchanged. -/
theorem c8_stable_id_forms (pk1 pk2 : Nat) (s : Session) (k : String)
    (hne : pk1 ≠ pk2) (hk : s.expSessionKey = some k) :
    AuthenticatedUser.participant_identifier pk1 = "user:" ++ Nat.repr pk1 ∧
    AuthenticatedUser.participant_identifier pk1 ≠
      AuthenticatedUser.participant_identifier pk2 ∧
    SessionUser.participant_identifier s = ("session:" ++ k, s) ∧
    (∀ s0 : Session,
      (SessionUser.participant_identifier
          (SessionUser.participant_identifier s0).2).1
        = (SessionUser.participant_identifier s0).1 ∧
      (SessionUser.participant_identifier
          (SessionUser.participant_identifier s0).2).2
        = (SessionUser.participant_identifier s0).2) := by
  refine ⟨rfl, user_id_inj hne, participant_identifier_materialized s k hk, ?_⟩
  intro s0
  obtain ⟨k0, hk0, hs0⟩ := participant_identifier_caches s0
  rw [participant_identifier_materialized _ _ hk0, hs0]
  exact ⟨rfl, rfl⟩

/-! ### Concrete fixtures for witnesses -/

/-- A displaying, accepting experiment. -/
def wExp : Experiment := ⟨"exp1", true, true, "varA", ["control", "varA"]⟩

/-- An experiment that is not displaying alternatives. -/
def wExpOff : Experiment := ⟨"off1", false, true, "varA", ["control"]⟩

/-- A session enrolled in `exp1` with a materialized session key. -/
def wSession : Session :=
  ⟨[("exp1", "varA")], ["click", "click"], false, some "KEY", some "KEY", "K"⟩

/-- Base state: both experiments registered, empty counters and table. -/
def wState : State := ⟨[wExp, wExpOff], ⟨[], []⟩, [], wSession, true⟩

/-- State whose `Enrollment` table holds `(7, exp1) ↦ varB`. -/
def wStateRow : State :=
  ⟨[wExp, wExpOff], ⟨[], []⟩, [((7, "exp1"), "varB")], wSession, true⟩

/-- State whose `Enrollment` table holds `(7, exp1) ↦ varA`. -/
def wStateA : State :=
  ⟨[wExp, wExpOff], ⟨[], []⟩, [((7, "exp1"), "varA")], wSession, true⟩

theorem c3_short_circuit_control_witness :
    (∀ e, experimentManagerGet wState.registry "off1" = some e →
      e.displaying = false) ∧
    DummyUser.is_enrolled wState "off1" "varA"
      = (decide (("varA" : String) = CONTROL_GROUP), wState) ∧
    AuthenticatedUser.is_enrolled wState 7 "off1" "varA"
      = (decide (("varA" : String) = CONTROL_GROUP), wState) ∧
    SessionUser.is_enrolled wState "off1" "varA"
      = (decide (("varA" : String) = CONTROL_GROUP), wState) := by
  have h : ∀ e, experimentManagerGet wState.registry "off1" = some e →
      e.displaying = false := by
    intro e he
    have hv : experimentManagerGet wState.registry "off1" = some wExpOff := by decide
    rw [hv] at he
    cases he
    rfl
  exact ⟨h, c3_short_circuit_control wState 7 "off1" "varA" h⟩

theorem c4_insert_race_vs_reenrollment_witness :
    (dbLookup wState.db 7 "exp1" = none ∧
      (AuthenticatedUser.set_enrollment wState 7 wExp "varA" (some "varW")).counters
        = wState.counters ∧
      dbLookup (AuthenticatedUser.set_enrollment wState 7 wExp "varA"
        (some "varW")).db 7 "exp1" = some "varW") ∧
    (dbLookup wStateRow.db 7 "exp1" = some "varB" ∧ ("varB" : String) ≠ "varA" ∧
      dbLookup (AuthenticatedUser.set_enrollment wStateRow 7 wExp "varA" none).db
        7 "exp1" = some "varA" ∧
      countOf (AuthenticatedUser.set_enrollment wStateRow 7 wExp "varA"
          none).counters.participants
          ("exp1", "varA", AuthenticatedUser.participant_identifier 7)
        = countOf wStateRow.counters.participants
            ("exp1", "varA", AuthenticatedUser.participant_identifier 7) + 1) := by
  constructor
  · have hnone : dbLookup wState.db 7 "exp1" = none := by decide
    have h := (c4_insert_race_vs_reenrollment wState 7 wExp "varA" "varW" "varB").1 hnone
    exact ⟨hnone, h.1, h.2.2.2.1⟩
  · have hcur : dbLookup wStateRow.db 7 "exp1" = some "varB" := by decide
    have hne : ("varB" : String) ≠ "varA" := by decide
    have h := (c4_insert_race_vs_reenrollment wStateRow 7 wExp "varA" "varW" "varB").2
      hcur hne
    exact ⟨hcur, hne, h.1, h.2⟩

theorem c5_is_enrolled_stable_witness :
    experimentManagerGet wStateA.registry "exp1" = some wExp ∧
    wExp.displaying = true ∧ ("varA" : String) ≠ "" ∧
    dbLookup wStateA.db 7 "exp1" = some "varA" ∧
    mapLookup wStateA.session.enrollments "exp1" = some "varA" ∧
    ((AuthenticatedUser.is_enrolled wStateA 7 "exp1" "varB").1
        = decide (("varB" : String) = "varA") ∧
      dbLookup (AuthenticatedUser.is_enrolled wStateA 7 "exp1" "varB").2.db 7 "exp1"
        = some "varA" ∧
      (AuthenticatedUser.is_enrolled
          (AuthenticatedUser.is_enrolled wStateA 7 "exp1" "varB").2 7 "exp1" "varB").1
        = decide (("varB" : String) = "varA") ∧
      dbLookup (AuthenticatedUser.is_enrolled
          (AuthenticatedUser.is_enrolled wStateA 7 "exp1" "varB").2 7 "exp1"
          "varB").2.db 7 "exp1" = some "varA") ∧
    ((SessionUser.is_enrolled wStateA "exp1" "varB").1
        = decide (("varB" : String) = "varA") ∧
      mapLookup (SessionUser.is_enrolled wStateA "exp1"
        "varB").2.session.enrollments "exp1" = some "varA" ∧
      (SessionUser.is_enrolled (SessionUser.is_enrolled wStateA "exp1" "varB").2
          "exp1" "varB").1 = decide (("varB" : String) = "varA") ∧
      mapLookup (SessionUser.is_enrolled
          (SessionUser.is_enrolled wStateA "exp1" "varB").2 "exp1"
          "varB").2.session.enrollments "exp1" = some "varA") := by
  have hreg : experimentManagerGet wStateA.registry "exp1" = some wExp := by decide
  have hdisp : wExp.displaying = true := by decide
  have hne : ("varA" : String) ≠ "" := by decide
  have ha : dbLookup wStateA.db 7 "exp1" = some "varA" := by decide
  have hs : mapLookup wStateA.session.enrollments "exp1" = some "varA" := by decide
  have h := c5_is_enrolled_stable wStateA 7 "exp1" "varB" "varA" wExp hreg hdisp hne
  exact ⟨hreg, hdisp, hne, ha, hs, h.1 ha, h.2 hs⟩

theorem c7_bot_null_participant_witness :
    botMatch "Mozilla/5.0 (compatible; Googlebot/2.1)" = true ∧
    create_user (some ⟨none, true, "Mozilla/5.0 (compatible; Googlebot/2.1)"⟩)
        false none = Participant.dummy ∧
    DummyUser.set_enrollment wState wExp "varA" = wState ∧
    DummyUser.record_goal wState "click" 3 = wState ∧
    DummyUser.confirm_human wState = wState ∧
    DummyUser.cancel_enrollment wState wExp = wState ∧
    DummyUser.get_enrollment wExp = none ∧
    DummyUser.is_enrolled wState "exp1" "varA"
      = (decide (("varA" : String) = CONTROL_GROUP), wState) := by
  have hbot : botMatch "Mozilla/5.0 (compatible; Googlebot/2.1)" = true := by decide
  exact ⟨hbot, c7_bot_null_participant wState
    ⟨none, true, "Mozilla/5.0 (compatible; Googlebot/2.1)"⟩ false none wExp
    "varA" "click" "exp1" "varA" 3 hbot⟩

theorem c8_stable_id_forms_witness :
    (1 : Nat) ≠ 2 ∧ wSession.expSessionKey = some "KEY" ∧
    AuthenticatedUser.participant_identifier 1 = "user:" ++ Nat.repr 1 ∧
    AuthenticatedUser.participant_identifier 1 ≠
      AuthenticatedUser.participant_identifier 2 ∧
    SessionUser.participant_identifier wSession = ("session:" ++ "KEY", wSession) ∧
    ((SessionUser.participant_identifier
        (SessionUser.participant_identifier wSession).2).1
      = (SessionUser.participant_identifier wSession).1 ∧
     (SessionUser.participant_identifier
        (SessionUser.participant_identifier wSession).2).2
      = (SessionUser.participant_identifier wSession).2) := by
  have hne : (1 : Nat) ≠ 2 := by decide
  have hk : wSession.expSessionKey = some "KEY" := rfl
  have h := c8_stable_id_forms 1 2 wSession "KEY" hne hk
  exact ⟨hne, hk, h.1, h.2.1, h.2.2.1, h.2.2.2 wSession⟩

/-! ### Session-fold lemmas (verification replay) -/

theorem is_verified_human_of_flag (st : State) (h : st.session.verifiedHuman = true) :
    SessionUser.is_verified_human st = true := by
  unfold SessionUser.is_verified_human
  cases hv : st.verifyHuman <;> simp [h]

theorem confirm_human_noop (st : State) (h : st.session.verifiedHuman = true) :
    SessionUser.confirm_human st = st := by
  unfold SessionUser.confirm_human
  simp [h]

theorem recordGoalStep_state (g : String) (c : Nat) (acc : State)
    (p : String × String) (k : String) (hk : acc.session.expSessionKey = some k) :
    (SessionUser.recordGoalStep g c acc p).session = acc.session ∧
    (SessionUser.recordGoalStep g c acc p).registry = acc.registry ∧
    (SessionUser.recordGoalStep g c acc p).db = acc.db ∧
    (SessionUser.recordGoalStep g c acc p).verifyHuman = acc.verifyHuman ∧
    (SessionUser.recordGoalStep g c acc p).counters.participants
      = acc.counters.participants := by
  unfold SessionUser.recordGoalStep
  match hm : experimentManagerGet acc.registry p.1 with
  | none => exact ⟨rfl, rfl, rfl, rfl, rfl⟩
  | some e =>
    by_cases hd : e.displaying
    · simp [hd, participant_identifier_materialized _ _ hk, increment_goal_count]
    · simp [hd]

theorem recordGoalStep_gcount_frame (g : String) (c : Nat) (acc : State)
    (p : String × String) (K : GKey) (hK : K.1 ≠ p.1) :
    countOf (SessionUser.recordGoalStep g c acc p).counters.goals K
      = countOf acc.counters.goals K := by
  unfold SessionUser.recordGoalStep
  match hm : experimentManagerGet acc.registry p.1 with
  | none => rfl
  | some e =>
    have hen : e.name = p.1 := experimentManagerGet_name _ _ _ hm
    by_cases hd : e.displaying
    · simp only [hd, reduceIte, increment_goal_count]
      refine countOf_bump_ne _ _ ?_
      obtain ⟨k1, k2, k3, k4⟩ := K
      simp only [ne_eq, Prod.mk.injEq]
      intro h
      exact hK (h.1.trans hen)
    · simp [hd]

theorem recordGoalStep_gcount_self (g : String) (c : Nat) (acc : State)
    (n a : String) (e : Experiment)
    (hm : experimentManagerGet acc.registry n = some e) (k : String)
    (hk : acc.session.expSessionKey = some k) (g0 : String) :
    countOf (SessionUser.recordGoalStep g c acc (n, a)).counters.goals
        (n, a, g0, "session:" ++ k)
      = countOf acc.counters.goals (n, a, g0, "session:" ++ k)
        + (if e.displaying = true ∧ g0 = g then c else 0) := by
  unfold SessionUser.recordGoalStep
  have hen : e.name = n := experimentManagerGet_name _ _ _ hm
  simp only [hm]
  by_cases hd : e.displaying
  · simp only [hd, reduceIte, increment_goal_count,
      participant_identifier_materialized _ _ hk, hen]
    by_cases hg : g0 = g
    · subst hg
      rw [countOf_bump_self]
      simp [hd]
    · rw [countOf_bump_ne _ _ (by simp only [ne_eq, Prod.mk.injEq]; tauto)]
      simp [hg]
  · simp only [Bool.not_eq_true] at hd
    simp [hd]

theorem rg_fold_state (L : List (String × String)) (st : State) (g : String)
    (c : Nat) (k : String) (hk : st.session.expSessionKey = some k) :
    (L.foldl (SessionUser.recordGoalStep g c) st).session = st.session ∧
    (L.foldl (SessionUser.recordGoalStep g c) st).registry = st.registry ∧
    (L.foldl (SessionUser.recordGoalStep g c) st).db = st.db ∧
    (L.foldl (SessionUser.recordGoalStep g c) st).verifyHuman = st.verifyHuman ∧
    (L.foldl (SessionUser.recordGoalStep g c) st).counters.participants
      = st.counters.participants := by
  induction L generalizing st with
  | nil => exact ⟨rfl, rfl, rfl, rfl, rfl⟩
  | cons p t ih =>
    obtain ⟨h1, h2, h3, h4, h5⟩ := recordGoalStep_state g c st p k hk
    have hk2 : (SessionUser.recordGoalStep g c st p).session.expSessionKey = some k := by
      rw [h1]; exact hk
    obtain ⟨i1, i2, i3, i4, i5⟩ := ih (SessionUser.recordGoalStep g c st p) hk2
    exact ⟨i1.trans h1, i2.trans h2, i3.trans h3, i4.trans h4, i5.trans h5⟩

theorem rg_fold_gcount_frame (L : List (String × String)) (st : State) (g : String)
    (c : Nat) (K : GKey) (h : ∀ p ∈ L, p.1 ≠ K.1) :
    countOf ((L.foldl (SessionUser.recordGoalStep g c) st)).counters.goals K
      = countOf st.counters.goals K := by
  induction L generalizing st with
  | nil => rfl
  | cons p t ih =>
    rw [List.foldl_cons, ih _ (fun q hq => h q (List.mem_cons_of_mem p hq))]
    exact recordGoalStep_gcount_frame g c st p K
      (fun hc => h p (List.mem_cons_self p t) hc.symm)

theorem rg_fold_gcount (L : List (String × String)) (st : State) (g : String)
    (c : Nat) (k : String) (hk : st.session.expSessionKey = some k)
    (n a g0 : String) (e : Experiment)
    (hm : experimentManagerGet st.registry n = some e)
    (hnd : (L.map Prod.fst).Nodup) (hmem : (n, a) ∈ L) :
    countOf ((L.foldl (SessionUser.recordGoalStep g c) st)).counters.goals
        (n, a, g0, "session:" ++ k)
      = countOf st.counters.goals (n, a, g0, "session:" ++ k)
        + (if e.displaying = true ∧ g0 = g then c else 0) := by
  induction L generalizing st with
  | nil => simp at hmem
  | cons p t ih =>
    simp only [List.map_cons, List.nodup_cons] at hnd
    rcases List.mem_cons.mp hmem with heq | hmemt
    · subst heq
      rw [List.foldl_cons]
      have hfr : ∀ q ∈ t, q.1 ≠ n := by
        intro q hq hc
        have hqm : q.1 ∈ t.map Prod.fst := List.mem_map_of_mem Prod.fst hq
        rw [hc] at hqm
        exact hnd.1 hqm
      rw [rg_fold_gcount_frame t _ g c _ hfr]
      exact recordGoalStep_gcount_self g c st n a e hm k hk g0
    · rw [List.foldl_cons]
      have hpn : p.1 ≠ n := by
        intro hc
        apply hnd.1
        rw [hc]
        exact List.mem_map_of_mem Prod.fst hmemt
      obtain ⟨h1, h2, -, -, -⟩ := recordGoalStep_state g c st p k hk
      have hk2 : (SessionUser.recordGoalStep g c st p).session.expSessionKey = some k := by
        rw [h1]; exact hk
      have hm2 : experimentManagerGet (SessionUser.recordGoalStep g c st p).registry n
          = some e := by rw [h2]; exact hm
      rw [ih _ hk2 hm2 hnd.2 hmemt,
        recordGoalStep_gcount_frame g c st p _ (Ne.symm hpn)]

theorem confirmStep_state (acc : State) (p : String × String) (k : String)
    (hk : acc.session.expSessionKey = some k) :
    (SessionUser.confirmStep acc p).session = acc.session ∧
    (SessionUser.confirmStep acc p).registry = acc.registry ∧
    (SessionUser.confirmStep acc p).db = acc.db ∧
    (SessionUser.confirmStep acc p).verifyHuman = acc.verifyHuman ∧
    (SessionUser.confirmStep acc p).counters.goals = acc.counters.goals := by
  unfold SessionUser.confirmStep
  match hm : experimentManagerGet acc.registry p.1 with
  | none => exact ⟨rfl, rfl, rfl, rfl, rfl⟩
  | some e => simp [participant_identifier_materialized _ _ hk,
      increment_participant_count]

theorem confirmStep_pcount_frame (acc : State) (p : String × String) (K : PKey)
    (hK : K.1 ≠ p.1) :
    countOf (SessionUser.confirmStep acc p).counters.participants K
      = countOf acc.counters.participants K := by
  unfold SessionUser.confirmStep
  match hm : experimentManagerGet acc.registry p.1 with
  | none => rfl
  | some e =>
    have hen : e.name = p.1 := experimentManagerGet_name _ _ _ hm
    simp only [increment_participant_count]
    refine countOf_bump_ne _ _ ?_
    obtain ⟨k1, k2, k3⟩ := K
    simp only [ne_eq, Prod.mk.injEq]
    intro h
    exact hK (h.1.trans hen)

theorem confirmStep_pcount_self (acc : State) (n a : String) (e : Experiment)
    (hm : experimentManagerGet acc.registry n = some e) (k : String)
    (hk : acc.session.expSessionKey = some k) :
    countOf (SessionUser.confirmStep acc (n, a)).counters.participants
        (n, a, "session:" ++ k)
      = countOf acc.counters.participants (n, a, "session:" ++ k) + 1 := by
  unfold SessionUser.confirmStep
  have hen : e.name = n := experimentManagerGet_name _ _ _ hm
  simp only [hm, participant_identifier_materialized _ _ hk,
    increment_participant_count, hen]
  exact countOf_bump_self ..

theorem cf_fold_state (L : List (String × String)) (st : State) (k : String)
    (hk : st.session.expSessionKey = some k) :
    (L.foldl SessionUser.confirmStep st).session = st.session ∧
    (L.foldl SessionUser.confirmStep st).registry = st.registry ∧
    (L.foldl SessionUser.confirmStep st).db = st.db ∧
    (L.foldl SessionUser.confirmStep st).verifyHuman = st.verifyHuman ∧
    (L.foldl SessionUser.confirmStep st).counters.goals = st.counters.goals := by
  induction L generalizing st with
  | nil => exact ⟨rfl, rfl, rfl, rfl, rfl⟩
  | cons p t ih =>
    obtain ⟨h1, h2, h3, h4, h5⟩ := confirmStep_state st p k hk
    have hk2 : (SessionUser.confirmStep st p).session.expSessionKey = some k := by
      rw [h1]; exact hk
    obtain ⟨i1, i2, i3, i4, i5⟩ := ih (SessionUser.confirmStep st p) hk2
    exact ⟨i1.trans h1, i2.trans h2, i3.trans h3, i4.trans h4, i5.trans h5⟩

theorem cf_fold_pcount_frame (L : List (String × String)) (st : State) (K : PKey)
    (h : ∀ p ∈ L, p.1 ≠ K.1) :
    countOf ((L.foldl SessionUser.confirmStep st)).counters.participants K
      = countOf st.counters.participants K := by
  induction L generalizing st with
  | nil => rfl
  | cons p t ih =>
    rw [List.foldl_cons, ih _ (fun q hq => h q (List.mem_cons_of_mem p hq))]
    exact confirmStep_pcount_frame st p K
      (fun hc => h p (List.mem_cons_self p t) hc.symm)

theorem cf_fold_pcount (L : List (String × String)) (st : State) (k : String)
    (hk : st.session.expSessionKey = some k) (n a : String) (e : Experiment)
    (hm : experimentManagerGet st.registry n = some e)
    (hnd : (L.map Prod.fst).Nodup) (hmem : (n, a) ∈ L) :
    countOf ((L.foldl SessionUser.confirmStep st)).counters.participants
        (n, a, "session:" ++ k)
      = countOf st.counters.participants (n, a, "session:" ++ k) + 1 := by
  induction L generalizing st with
  | nil => simp at hmem
  | cons p t ih =>
    simp only [List.map_cons, List.nodup_cons] at hnd
    rcases List.mem_cons.mp hmem with heq | hmemt
    · subst heq
      rw [List.foldl_cons]
      have hfr : ∀ q ∈ t, q.1 ≠ n := by
        intro q hq hc
        have hqm : q.1 ∈ t.map Prod.fst := List.mem_map_of_mem Prod.fst hq
        rw [hc] at hqm
        exact hnd.1 hqm
      rw [cf_fold_pcount_frame t _ _ hfr]
      exact confirmStep_pcount_self st n a e hm k hk
    · rw [List.foldl_cons]
      have hpn : p.1 ≠ n := by
        intro hc
        apply hnd.1
        rw [hc]
        exact List.mem_map_of_mem Prod.fst hmemt
      obtain ⟨h1, h2, -, -, -⟩ := confirmStep_state st p k hk
      have hk2 : (SessionUser.confirmStep st p).session.expSessionKey = some k := by
        rw [h1]; exact hk
      have hm2 : experimentManagerGet (SessionUser.confirmStep st p).registry n
          = some e := by rw [h2]; exact hm
      rw [ih _ hk2 hm2 hnd.2 hmemt,
        confirmStep_pcount_frame st p _ (Ne.symm hpn)]

theorem record_goal_verified_state (st : State) (g : String) (c : Nat) (k : String)
    (hv : SessionUser.is_verified_human st = true)
    (hk : st.session.expSessionKey = some k) :
    (SessionUser.record_goal st g c).session = st.session ∧
    (SessionUser.record_goal st g c).registry = st.registry ∧
    (SessionUser.record_goal st g c).db = st.db ∧
    (SessionUser.record_goal st g c).verifyHuman = st.verifyHuman ∧
    (SessionUser.record_goal st g c).counters.participants
      = st.counters.participants := by
  unfold SessionUser.record_goal
  simp only [hv, reduceIte]
  exact rg_fold_state _ st g c k hk

theorem record_goal_verified_gcount (st : State) (g : String) (c : Nat) (k : String)
    (hv : SessionUser.is_verified_human st = true)
    (hk : st.session.expSessionKey = some k) (n a g0 : String) (e : Experiment)
    (hm : experimentManagerGet st.registry n = some e)
    (hnd : (st.session.enrollments.map Prod.fst).Nodup)
    (hmem : (n, a) ∈ st.session.enrollments) :
    countOf (SessionUser.record_goal st g c).counters.goals
        (n, a, g0, "session:" ++ k)
      = countOf st.counters.goals (n, a, g0, "session:" ++ k)
        + (if e.displaying = true ∧ g0 = g then c else 0) := by
  unfold SessionUser.record_goal
  simp only [hv, reduceIte]
  exact rg_fold_gcount _ st g c k hk n a g0 e hm hnd hmem

theorem gr_fold_state (G : List String) (st : State) (k : String)
    (hflag : st.session.verifiedHuman = true)
    (hk : st.session.expSessionKey = some k) :
    (G.foldl (fun acc g => SessionUser.record_goal acc g 1) st).session
      = st.session ∧
    (G.foldl (fun acc g => SessionUser.record_goal acc g 1) st).registry
      = st.registry ∧
    (G.foldl (fun acc g => SessionUser.record_goal acc g 1) st).db = st.db ∧
    (G.foldl (fun acc g => SessionUser.record_goal acc g 1) st).verifyHuman
      = st.verifyHuman ∧
    (G.foldl (fun acc g => SessionUser.record_goal acc g 1) st).counters.participants
      = st.counters.participants := by
  induction G generalizing st with
  | nil => exact ⟨rfl, rfl, rfl, rfl, rfl⟩
  | cons g1 t ih =>
    obtain ⟨h1, h2, h3, h4, h5⟩ :=
      record_goal_verified_state st g1 1 k (is_verified_human_of_flag st hflag) hk
    have hflag2 : (SessionUser.record_goal st g1 1).session.verifiedHuman = true := by
      rw [h1]; exact hflag
    have hk2 : (SessionUser.record_goal st g1 1).session.expSessionKey = some k := by
      rw [h1]; exact hk
    obtain ⟨i1, i2, i3, i4, i5⟩ := ih (SessionUser.record_goal st g1 1) hflag2 hk2
    exact ⟨i1.trans h1, i2.trans h2, i3.trans h3, i4.trans h4, i5.trans h5⟩

theorem gr_fold_gcount (G : List String) (st : State) (k : String)
    (hflag : st.session.verifiedHuman = true)
    (hk : st.session.expSessionKey = some k) (n a g0 : String) (e : Experiment)
    (hm : experimentManagerGet st.registry n = some e)
    (hnd : (st.session.enrollments.map Prod.fst).Nodup)
    (hmem : (n, a) ∈ st.session.enrollments) :
    countOf ((G.foldl (fun acc g => SessionUser.record_goal acc g 1) st)).counters.goals
        (n, a, g0, "session:" ++ k)
      = countOf st.counters.goals (n, a, g0, "session:" ++ k)
        + (if e.displaying = true then G.count g0 else 0) := by
  induction G generalizing st with
  | nil => simp
  | cons g1 t ih =>
    obtain ⟨h1, h2, -, -, -⟩ :=
      record_goal_verified_state st g1 1 k (is_verified_human_of_flag st hflag) hk
    have hflag2 : (SessionUser.record_goal st g1 1).session.verifiedHuman = true := by
      rw [h1]; exact hflag
    have hk2 : (SessionUser.record_goal st g1 1).session.expSessionKey = some k := by
      rw [h1]; exact hk
    have hm2 : experimentManagerGet (SessionUser.record_goal st g1 1).registry n
        = some e := by rw [h2]; exact hm
    have hnd2 : ((SessionUser.record_goal st g1 1).session.enrollments.map
        Prod.fst).Nodup := by rw [h1]; exact hnd
    have hmem2 : (n, a) ∈ (SessionUser.record_goal st g1 1).session.enrollments := by
      rw [h1]; exact hmem
    rw [List.foldl_cons, ih _ hflag2 hk2 hm2 hnd2 hmem2,
      record_goal_verified_gcount st g1 1 k (is_verified_human_of_flag st hflag) hk
        n a g0 e hm hnd hmem]
    by_cases hd : e.displaying = true
    · by_cases hg : g0 = g1
      · subst hg
        simp [hd, List.count_cons]
        omega
      · simp [hd, hg, List.count_cons, Ne.symm hg]
    · simp [hd]

/-- Full effect of a first `confirm_human()` call on an unverified session
with a materialized session key: the flag is set, pending goals are cleared,
and for every enrolled registered experiment the participant counter gains
exactly one deferred increment while its goal counters gain the pending
occurrences of each goal (only when the experiment is displaying). -/
theorem confirm_human_effects (st : State) (k : String)
    (hflag : st.session.verifiedHuman = false)
    (hk : st.session.expSessionKey = some k)
    (hnd : (st.session.enrollments.map Prod.fst).Nodup) :
    (SessionUser.confirm_human st).session.verifiedHuman = true ∧
    (SessionUser.confirm_human st).session.goals = [] ∧
    (SessionUser.confirm_human st).session.enrollments = st.session.enrollments ∧
    (SessionUser.confirm_human st).session.expSessionKey = some k ∧
    (SessionUser.confirm_human st).registry = st.registry ∧
    (SessionUser.confirm_human st).db = st.db ∧
    (SessionUser.confirm_human st).verifyHuman = st.verifyHuman ∧
    (∀ n a e, (n, a) ∈ st.session.enrollments →
      experimentManagerGet st.registry n = some e →
      countOf (SessionUser.confirm_human st).counters.participants
          (n, a, "session:" ++ k)
        = countOf st.counters.participants (n, a, "session:" ++ k) + 1 ∧
      (∀ g0, countOf (SessionUser.confirm_human st).counters.goals
          (n, a, g0, "session:" ++ k)
        = countOf st.counters.goals (n, a, g0, "session:" ++ k)
          + (if e.displaying = true then st.session.goals.count g0 else 0))) := by
  have hA : SessionUser.confirm_human st =
      (let stA : State := { st with session := { st.session with verifiedHuman := true } }
       let stB : State := stA.session.enrollments.foldl SessionUser.confirmStep stA
       let stC : State :=
         stB.session.goals.foldl (fun acc g => SessionUser.record_goal acc g 1) stB
       { stC with session := { stC.session with goals := [] } }) := by
    unfold SessionUser.confirm_human
    rw [hflag]
    rfl
  rw [hA]
  set stA : State := { st with session := { st.session with verifiedHuman := true } }
  set stB : State := stA.session.enrollments.foldl SessionUser.confirmStep stA
  set stC : State :=
    stB.session.goals.foldl (fun acc g => SessionUser.record_goal acc g 1) stB
  have hAk : stA.session.expSessionKey = some k := hk
  obtain ⟨hB1, hB2, hB3, hB4, hB5⟩ := cf_fold_state stA.session.enrollments stA k hAk
  have hBflag : stB.session.verifiedHuman = true := by rw [hB1]
  have hBk : stB.session.expSessionKey = some k := by rw [hB1]; exact hAk
  obtain ⟨hC1, hC2, hC3, hC4, hC5⟩ := gr_fold_state stB.session.goals stB k hBflag hBk
  refine ⟨?_, rfl, ?_, ?_, ?_, ?_, ?_, ?_⟩
  · show stC.session.verifiedHuman = true
    rw [hC1]; exact hBflag
  · show stC.session.enrollments = st.session.enrollments
    rw [hC1, hB1]
  · show stC.session.expSessionKey = some k
    rw [hC1]; exact hBk
  · show stC.registry = st.registry
    rw [hC2, hB2]
  · show stC.db = st.db
    rw [hC3, hB3]
  · show stC.verifyHuman = st.verifyHuman
    rw [hC4, hB4]
  · intro n a e hmem hm
    have hmA : experimentManagerGet stA.registry n = some e := hm
    have hmemA : (n, a) ∈ stA.session.enrollments := hmem
    have hndA : (stA.session.enrollments.map Prod.fst).Nodup := hnd
    have hmB : experimentManagerGet stB.registry n = some e := by rw [hB2]; exact hmA
    have hmemB : (n, a) ∈ stB.session.enrollments := by rw [hB1]; exact hmemA
    have hndB : (stB.session.enrollments.map Prod.fst).Nodup := by
      rw [hB1]; exact hndA
    constructor
    · show countOf stC.counters.participants (n, a, "session:" ++ k)
        = countOf st.counters.participants (n, a, "session:" ++ k) + 1
      rw [hC5]
      exact cf_fold_pcount stA.session.enrollments stA k hAk n a e hmA hndA hmemA
    · intro g0
      show countOf stC.counters.goals (n, a, g0, "session:" ++ k)
        = countOf st.counters.goals (n, a, g0, "session:" ++ k)
          + (if e.displaying = true then st.session.goals.count g0 else 0)
      rw [gr_fold_gcount stB.session.goals stB k hBflag hBk n a g0 e hmB hndB hmemB,
        hB5]
      have hgoals : stB.session.goals = st.session.goals := by rw [hB1]
      rw [hgoals]

theorem keys_mapSet (l : List (String × String)) (n v : String) :
    (mapSet l n v).map Prod.fst =
      if n ∈ l.map Prod.fst then l.map Prod.fst else l.map Prod.fst ++ [n] := by
  induction l with
  | nil => simp [mapSet]
  | cons e t ih =>
    obtain ⟨k0, w⟩ := e
    by_cases h0 : k0 = n
    · subst h0; simp [mapSet]
    · by_cases hm : n ∈ t.map Prod.fst
      · simp [mapSet, h0, ih, hm, Ne.symm h0]
      · simp [mapSet, h0, ih, hm, Ne.symm h0]

theorem nodup_keys_mapSet (l : List (String × String)) (n v : String)
    (h : (l.map Prod.fst).Nodup) : ((mapSet l n v).map Prod.fst).Nodup := by
  rw [keys_mapSet]
  by_cases hm : n ∈ l.map Prod.fst
  · simpa [hm] using h
  · simp [hm, List.nodup_append, h]

theorem mem_mapSet_self (l : List (String × String)) (n v : String) :
    (n, v) ∈ mapSet l n v := by
  induction l with
  | nil => simp [mapSet]
  | cons e t ih =>
    obtain ⟨k0, w⟩ := e
    by_cases h0 : k0 = n
    · subst h0; simp [mapSet]
    · simp only [mapSet, if_neg h0]
      exact List.mem_cons_of_mem _ ih

/-! ### Claim C2 -/

/-- C2: for a transient identity under the default configuration
(`EXPERIMENTS_VERIFY_HUMAN = True`) while unverified, `record_goal` touches no
counters and appends the goal name to the ordered pending list; the first
`confirm_human()` then increments the participant counter once for the stored
variant of every currently-enrolled (registered) experiment, replays each
pending goal through `record_goal` so the pending occurrences land as
goal-counter increments (for experiments displaying alternatives), and clears
the pending list; a second `confirm_human()` changes nothing. -/
theorem c2_unverified_record_and_replay (st : State) (k g : String) (c : Nat)
    (hvh : st.verifyHuman = true)
    (hflag : st.session.verifiedHuman = false)
    (hk : st.session.expSessionKey = some k)
    (hnd : (st.session.enrollments.map Prod.fst).Nodup) :
    (SessionUser.record_goal st g c).counters = st.counters ∧
    (SessionUser.record_goal st g c).session.goals = st.session.goals ++ [g] ∧
    (SessionUser.record_goal st g c).session.enrollments = st.session.enrollments ∧
    (SessionUser.record_goal st g c).db = st.db ∧
    (SessionUser.confirm_human st).session.verifiedHuman = true ∧
    (SessionUser.confirm_human st).session.goals = [] ∧
    (∀ n a e, (n, a) ∈ st.session.enrollments →
      experimentManagerGet st.registry n = some e →
      countOf (SessionUser.confirm_human st).counters.participants
          (n, a, "session:" ++ k)
        = countOf st.counters.participants (n, a, "session:" ++ k) + 1 ∧
      (∀ g0, e.displaying = true →
        countOf (SessionUser.confirm_human st).counters.goals
            (n, a, g0, "session:" ++ k)
          = countOf st.counters.goals (n, a, g0, "session:" ++ k)
            + st.session.goals.count g0)) ∧
    SessionUser.confirm_human (SessionUser.confirm_human st)
      = SessionUser.confirm_human st := by
  have hv : SessionUser.is_verified_human st = false := by
    unfold SessionUser.is_verified_human
    rw [hvh]
    simpa using hflag
  have hrg : SessionUser.record_goal st g c =
      { st with session := { st.session with goals := st.session.goals ++ [g] } } := by
    unfold SessionUser.record_goal
    rw [hv]
    rfl
  obtain ⟨e1, e2, e3, e4, e5, e6, e7, e8⟩ := confirm_human_effects st k hflag hk hnd
  refine ⟨by rw [hrg], by rw [hrg], by rw [hrg], by rw [hrg], e1, e2, ?_, ?_⟩
  · intro n a e hmem hm
    obtain ⟨hp, hg⟩ := e8 n a e hmem hm
    exact ⟨hp, fun g0 hd => by rw [hg g0, if_pos hd]⟩
  · exact confirm_human_noop _ e1

/-! ### Claim C9 -/

/-- C9 (implicit): with the verification toggle disabled
(`EXPERIMENTS_VERIFY_HUMAN = False`) and the session flag still unset, a
transient identity's `set_enrollment` increments the participant counter
immediately, yet a first `confirm_human()` still replays the enrollment
(it tests the session flag, not the toggle), incrementing the participant
counter for the enrolled experiment a second time under the same stable id. -/
theorem c9_toggle_off_double_increment (st : State) (k alt n : String)
    (e : Experiment)
    (hvh : st.verifyHuman = false)
    (hflag : st.session.verifiedHuman = false)
    (hk : st.session.expSessionKey = some k)
    (hnd : (st.session.enrollments.map Prod.fst).Nodup)
    (hm : experimentManagerGet st.registry n = some e) :
    countOf (SessionUser.set_enrollment st e alt).counters.participants
        (n, alt, "session:" ++ k)
      = countOf st.counters.participants (n, alt, "session:" ++ k) + 1 ∧
    (SessionUser.set_enrollment st e alt).session.verifiedHuman = false ∧
    countOf (SessionUser.confirm_human
        (SessionUser.set_enrollment st e alt)).counters.participants
        (n, alt, "session:" ++ k)
      = countOf st.counters.participants (n, alt, "session:" ++ k) + 2 := by
  have hen : e.name = n := experimentManagerGet_name _ _ _ hm
  have h1 : SessionUser.set_enrollment st e alt =
      { st with
        session := { st.session with
          enrollments := mapSet st.session.enrollments e.name alt },
        counters := increment_participant_count st.counters e.name alt
          ("session:" ++ k) } := by
    unfold SessionUser.set_enrollment SessionUser.is_verified_human
    rw [hvh]
    have hkL : ({ st.session with
        enrollments := mapSet st.session.enrollments e.name alt } : Session).expSessionKey
        = some k := hk
    simp [participant_identifier_materialized _ _ hkL]
  have hp1 : countOf (SessionUser.set_enrollment st e alt).counters.participants
      (n, alt, "session:" ++ k)
      = countOf st.counters.participants (n, alt, "session:" ++ k) + 1 := by
    rw [h1]
    simp only [increment_participant_count, hen]
    exact countOf_bump_self ..
  have hflag1 : (SessionUser.set_enrollment st e alt).session.verifiedHuman
      = false := by rw [h1]; exact hflag
  have hk1 : (SessionUser.set_enrollment st e alt).session.expSessionKey
      = some k := by rw [h1]; exact hk
  have hnd1 : ((SessionUser.set_enrollment st e alt).session.enrollments.map
      Prod.fst).Nodup := by
    rw [h1]
    exact nodup_keys_mapSet _ _ _ hnd
  have hm1 : experimentManagerGet (SessionUser.set_enrollment st e alt).registry n
      = some e := by rw [h1]; exact hm
  have hmem1 : (n, alt) ∈ (SessionUser.set_enrollment st e alt).session.enrollments := by
    rw [h1]
    show (n, alt) ∈ mapSet st.session.enrollments e.name alt
    rw [hen]
    exact mem_mapSet_self _ _ _
  obtain ⟨-, -, -, -, -, -, -, e8⟩ :=
    confirm_human_effects (SessionUser.set_enrollment st e alt) k hflag1 hk1 hnd1
  obtain ⟨hp2, -⟩ := e8 n alt e hmem1 hm1
  refine ⟨hp1, hflag1, ?_⟩
  rw [hp2, hp1]

/-! ### Claim C10 -/

/-- C10 (implicit): for an unverified transient identity, `record_goal(g, c)`
with any count `c` discards the count — the behavior is identical to count 1,
only the goal name is appended once to the pending list and no counter moves —
and the verification replay re-records it with the default count of 1, so
exactly one unit of that occurrence survives verification (here shown from an
empty pending list into a displaying experiment). -/
theorem c10_pending_count_discarded (st : State) (k g n a : String) (c : Nat)
    (e : Experiment)
    (hvh : st.verifyHuman = true)
    (hflag : st.session.verifiedHuman = false)
    (hk : st.session.expSessionKey = some k)
    (hnd : (st.session.enrollments.map Prod.fst).Nodup)
    (hmem : (n, a) ∈ st.session.enrollments)
    (hm : experimentManagerGet st.registry n = some e)
    (hdisp : e.displaying = true)
    (hpend : st.session.goals = []) :
    SessionUser.record_goal st g c = SessionUser.record_goal st g 1 ∧
    (SessionUser.record_goal st g c).session.goals = st.session.goals ++ [g] ∧
    (SessionUser.record_goal st g c).counters = st.counters ∧
    countOf (SessionUser.confirm_human
        (SessionUser.record_goal st g c)).counters.goals
        (n, a, g, "session:" ++ k)
      = countOf st.counters.goals (n, a, g, "session:" ++ k) + 1 := by
  have hv : SessionUser.is_verified_human st = false := by
    unfold SessionUser.is_verified_human
    rw [hvh]
    simpa using hflag
  have hrg : SessionUser.record_goal st g c =
      { st with session := { st.session with goals := st.session.goals ++ [g] } } := by
    unfold SessionUser.record_goal
    rw [hv]
    rfl
  have hrg1 : SessionUser.record_goal st g 1 =
      { st with session := { st.session with goals := st.session.goals ++ [g] } } := by
    unfold SessionUser.record_goal
    rw [hv]
    rfl
  have hflagX : (SessionUser.record_goal st g c).session.verifiedHuman = false := by
    rw [hrg]; exact hflag
  have hkX : (SessionUser.record_goal st g c).session.expSessionKey = some k := by
    rw [hrg]; exact hk
  have hndX : ((SessionUser.record_goal st g c).session.enrollments.map
      Prod.fst).Nodup := by rw [hrg]; exact hnd
  have hmemX : (n, a) ∈ (SessionUser.record_goal st g c).session.enrollments := by
    rw [hrg]; exact hmem
  have hmX : experimentManagerGet (SessionUser.record_goal st g c).registry n
      = some e := by rw [hrg]; exact hm
  obtain ⟨-, -, -, -, -, -, -, e8⟩ :=
    confirm_human_effects (SessionUser.record_goal st g c) k hflagX hkX hndX
  obtain ⟨-, hg⟩ := e8 n a e hmemX hmX
  refine ⟨hrg.trans hrg1.symm, by rw [hrg], by rw [hrg], ?_⟩
  have hgc := hg g
  have hcnt : (SessionUser.record_goal st g c).counters = st.counters := by rw [hrg]
  have hgl : (SessionUser.record_goal st g c).session.goals = [g] := by
    rw [hrg]
    simp [hpend]
  rw [hcnt, hgl] at hgc
  simpa [hdisp] using hgc

/-- Session with no enrollments and no pending goals (toggle-off scenario). -/
def wSessionEmpty : Session := ⟨[], [], false, some "KEY", some "KEY", "K"⟩

/-- State with verification globally disabled. -/
def wStateOff : State := ⟨[wExp, wExpOff], ⟨[], []⟩, [], wSessionEmpty, false⟩

/-- Enrolled session with an empty pending-goal list. -/
def wSessionNoPend : Session :=
  ⟨[("exp1", "varA")], [], false, some "KEY", some "KEY", "K"⟩

def wStateNoPend : State := ⟨[wExp, wExpOff], ⟨[], []⟩, [], wSessionNoPend, true⟩

theorem c2_unverified_record_and_replay_witness :
    wState.verifyHuman = true ∧
    wState.session.verifiedHuman = false ∧
    wState.session.expSessionKey = some "KEY" ∧
    (wState.session.enrollments.map Prod.fst).Nodup ∧
    ("exp1", "varA") ∈ wState.session.enrollments ∧
    experimentManagerGet wState.registry "exp1" = some wExp ∧
    (SessionUser.record_goal wState "click" 5).counters = wState.counters ∧
    (SessionUser.record_goal wState "click" 5).session.goals
      = wState.session.goals ++ ["click"] ∧
    (SessionUser.confirm_human wState).session.verifiedHuman = true ∧
    (SessionUser.confirm_human wState).session.goals = [] ∧
    countOf (SessionUser.confirm_human wState).counters.participants
        ("exp1", "varA", "session:" ++ "KEY")
      = countOf wState.counters.participants
          ("exp1", "varA", "session:" ++ "KEY") + 1 ∧
    countOf (SessionUser.confirm_human wState).counters.goals
        ("exp1", "varA", "click", "session:" ++ "KEY")
      = countOf wState.counters.goals ("exp1", "varA", "click", "session:" ++ "KEY")
        + wState.session.goals.count "click" ∧
    SessionUser.confirm_human (SessionUser.confirm_human wState)
      = SessionUser.confirm_human wState := by
  have hvh : wState.verifyHuman = true := rfl
  have hflag : wState.session.verifiedHuman = false := rfl
  have hk : wState.session.expSessionKey = some "KEY" := rfl
  have hnd : (wState.session.enrollments.map Prod.fst).Nodup := by decide
  have hmem : ("exp1", "varA") ∈ wState.session.enrollments := by decide
  have hm : experimentManagerGet wState.registry "exp1" = some wExp := by decide
  have hdisp : wExp.displaying = true := rfl
  have h := c2_unverified_record_and_replay wState "KEY" "click" 5 hvh hflag hk hnd
  obtain ⟨a1, a2, -, -, b1, b2, b3, b4⟩ := h
  obtain ⟨hp, hg⟩ := b3 "exp1" "varA" wExp hmem hm
  exact ⟨hvh, hflag, hk, hnd, hmem, hm, a1, a2, b1, b2, hp, hg "click" hdisp, b4⟩

theorem c9_toggle_off_double_increment_witness :
    wStateOff.verifyHuman = false ∧
    wStateOff.session.verifiedHuman = false ∧
    wStateOff.session.expSessionKey = some "KEY" ∧
    (wStateOff.session.enrollments.map Prod.fst).Nodup ∧
    experimentManagerGet wStateOff.registry "exp1" = some wExp ∧
    countOf (SessionUser.set_enrollment wStateOff wExp "varA").counters.participants
        ("exp1", "varA", "session:" ++ "KEY")
      = countOf wStateOff.counters.participants
          ("exp1", "varA", "session:" ++ "KEY") + 1 ∧
    (SessionUser.set_enrollment wStateOff wExp "varA").session.verifiedHuman = false ∧
    countOf (SessionUser.confirm_human
        (SessionUser.set_enrollment wStateOff wExp "varA")).counters.participants
        ("exp1", "varA", "session:" ++ "KEY")
      = countOf wStateOff.counters.participants
          ("exp1", "varA", "session:" ++ "KEY") + 2 := by
  have hvh : wStateOff.verifyHuman = false := rfl
  have hflag : wStateOff.session.verifiedHuman = false := rfl
  have hk : wStateOff.session.expSessionKey = some "KEY" := rfl
  have hnd : (wStateOff.session.enrollments.map Prod.fst).Nodup := by decide
  have hm : experimentManagerGet wStateOff.registry "exp1" = some wExp := by decide
  have h := c9_toggle_off_double_increment wStateOff "KEY" "varA" "exp1" wExp
    hvh hflag hk hnd hm
  exact ⟨hvh, hflag, hk, hnd, hm, h.1, h.2.1, h.2.2⟩

theorem c10_pending_count_discarded_witness :
    wStateNoPend.verifyHuman = true ∧
    wStateNoPend.session.verifiedHuman = false ∧
    wStateNoPend.session.expSessionKey = some "KEY" ∧
    (wStateNoPend.session.enrollments.map Prod.fst).Nodup ∧
    ("exp1", "varA") ∈ wStateNoPend.session.enrollments ∧
    experimentManagerGet wStateNoPend.registry "exp1" = some wExp ∧
    wExp.displaying = true ∧
    wStateNoPend.session.goals = [] ∧
    SessionUser.record_goal wStateNoPend "click" 5
      = SessionUser.record_goal wStateNoPend "click" 1 ∧
    (SessionUser.record_goal wStateNoPend "click" 5).session.goals
      = wStateNoPend.session.goals ++ ["click"] ∧
    (SessionUser.record_goal wStateNoPend "click" 5).counters
      = wStateNoPend.counters ∧
    countOf (SessionUser.confirm_human
        (SessionUser.record_goal wStateNoPend "click" 5)).counters.goals
        ("exp1", "varA", "click", "session:" ++ "KEY")
      = countOf wStateNoPend.counters.goals
          ("exp1", "varA", "click", "session:" ++ "KEY") + 1 := by
  have hvh : wStateNoPend.verifyHuman = true := rfl
  have hflag : wStateNoPend.session.verifiedHuman = false := rfl
  have hk : wStateNoPend.session.expSessionKey = some "KEY" := rfl
  have hnd : (wStateNoPend.session.enrollments.map Prod.fst).Nodup := by decide
  have hmem : ("exp1", "varA") ∈ wStateNoPend.session.enrollments := by decide
  have hm : experimentManagerGet wStateNoPend.registry "exp1" = some wExp := by decide
  have hdisp : wExp.displaying = true := rfl
  have hpend : wStateNoPend.session.goals = [] := rfl
  have h := c10_pending_count_discarded wStateNoPend "KEY" "click" "exp1" "varA" 5
    wExp hvh hflag hk hnd hmem hm hdisp hpend
  exact ⟨hvh, hflag, hk, hnd, hmem, hm, hdisp, hpend, h.1, h.2.1, h.2.2.1, h.2.2.2⟩

/-! ### Incorporate lemmas -/

theorem auth_set_enrollment_frame (st : State) (pk : Nat) (e : Experiment)
    (alt : String) :
    (AuthenticatedUser.set_enrollment st pk e alt none).registry = st.registry ∧
    (AuthenticatedUser.set_enrollment st pk e alt none).session = st.session ∧
    (AuthenticatedUser.set_enrollment st pk e alt none).verifyHuman
      = st.verifyHuman ∧
    (∀ pk2 m, m ≠ e.name →
      dbLookup (AuthenticatedUser.set_enrollment st pk e alt none).db pk2 m
        = dbLookup st.db pk2 m) ∧
    (∀ K : PKey, K.1 ≠ e.name →
      countOf (AuthenticatedUser.set_enrollment st pk e alt
          none).counters.participants K
        = countOf st.counters.participants K) ∧
    (∀ K : PKey, K.2.2 ≠ AuthenticatedUser.participant_identifier pk →
      countOf (AuthenticatedUser.set_enrollment st pk e alt
          none).counters.participants K
        = countOf st.counters.participants K) ∧
    (AuthenticatedUser.set_enrollment st pk e alt none).counters.goals
      = st.counters.goals := by
  have hbump : ∀ (K : PKey), K.1 ≠ e.name ∨
      K.2.2 ≠ AuthenticatedUser.participant_identifier pk →
      countOf (bump st.counters.participants
        (e.name, alt, AuthenticatedUser.participant_identifier pk) 1) K
      = countOf st.counters.participants K := by
    intro K hK
    refine countOf_bump_ne _ _ ?_
    obtain ⟨k1, k2, k3⟩ := K
    simp only [ne_eq, Prod.mk.injEq] at hK ⊢
    tauto
  refine ⟨?_, ?_, ?_, ?_, ?_, ?_, ?_⟩
  · unfold AuthenticatedUser.set_enrollment
    split
    · rfl
    · split <;> rfl
  · unfold AuthenticatedUser.set_enrollment
    split
    · rfl
    · split <;> rfl
  · unfold AuthenticatedUser.set_enrollment
    split
    · rfl
    · split <;> rfl
  · intro pk2 m hm
    unfold AuthenticatedUser.set_enrollment
    split
    · exact dbLookup_dbSet_ne _ _ (by simp [Prod.ext_iff, hm])
    · split
      · rfl
      · exact dbLookup_dbSet_ne _ _ (by simp [Prod.ext_iff, hm])
  · intro K hK
    unfold AuthenticatedUser.set_enrollment
    split
    · exact hbump K (Or.inl hK)
    · split <;> exact hbump K (Or.inl hK)
  · intro K hK
    unfold AuthenticatedUser.set_enrollment
    split
    · exact hbump K (Or.inr hK)
    · split <;> exact hbump K (Or.inr hK)
  · unfold AuthenticatedUser.set_enrollment
    split
    · rfl
    · split <;> rfl

theorem auth_set_enrollment_insert (st : State) (pk : Nat) (e : Experiment)
    (alt : String) (h : dbLookup st.db pk e.name = none) :
    dbLookup (AuthenticatedUser.set_enrollment st pk e alt none).db pk e.name
      = some alt ∧
    countOf (AuthenticatedUser.set_enrollment st pk e alt
        none).counters.participants
        (e.name, alt, AuthenticatedUser.participant_identifier pk)
      = countOf st.counters.participants
          (e.name, alt, AuthenticatedUser.participant_identifier pk) + 1 := by
  unfold AuthenticatedUser.set_enrollment
  rw [h]
  simp only [increment_participant_count]
  exact ⟨dbLookup_dbSet_self .., countOf_bump_self ..⟩

theorem transfer_fold_state (F : List (String × Nat)) (st : State)
    (n alt : String) (pk : Nat) :
    (F.foldl (WebUser.transferGoal n alt pk) st).registry = st.registry ∧
    (F.foldl (WebUser.transferGoal n alt pk) st).db = st.db ∧
    (F.foldl (WebUser.transferGoal n alt pk) st).session = st.session ∧
    (F.foldl (WebUser.transferGoal n alt pk) st).verifyHuman = st.verifyHuman ∧
    (F.foldl (WebUser.transferGoal n alt pk) st).counters.participants
      = st.counters.participants ∧
    (F.foldl (WebUser.transferGoal n alt pk) st).counters.goals
      = F.foldl (fun gl gc =>
          bump gl (n, alt, gc.1, AuthenticatedUser.participant_identifier pk) gc.2)
          st.counters.goals := by
  induction F generalizing st with
  | nil => exact ⟨rfl, rfl, rfl, rfl, rfl, rfl⟩
  | cons gc t ih =>
    simp only [List.foldl_cons]
    obtain ⟨i1, i2, i3, i4, i5, i6⟩ := ih (WebUser.transferGoal n alt pk st gc)
    exact ⟨i1, i2, i3, i4, i5, i6⟩

theorem truthy_eq_some {o : Option String} {a : String} (h : truthy o = some a) :
    o = some a ∧ a ≠ "" := by
  match o with
  | none => simp [truthy] at h
  | some b =>
    by_cases hb : b = ""
    · rw [hb] at h
      simp [truthy] at h
    · simp only [truthy, if_neg hb] at h
      cases h
      exact ⟨rfl, hb⟩

theorem cancel_enrollment_effects (st : State) (e : Experiment) (n alt k : String)
    (hen : e.name = n) (hk : st.session.expSessionKey = some k)
    (hl : mapLookup st.session.enrollments n = some alt) (hne : alt ≠ "") :
    mapLookup (SessionUser.cancel_enrollment st e).session.enrollments n = none ∧
    countOf (SessionUser.cancel_enrollment st e).counters.participants
      (n, alt, "session:" ++ k) = 0 ∧
    (∀ g, countOf (SessionUser.cancel_enrollment st e).counters.goals
      (n, alt, g, "session:" ++ k) = 0) ∧
    (∀ K : PKey, K.1 ≠ n ∨ K.2.2 ≠ "session:" ++ k →
      countOf (SessionUser.cancel_enrollment st e).counters.participants K
        = countOf st.counters.participants K) ∧
    (∀ K : GKey, K.1 ≠ n ∨ K.2.2.2 ≠ "session:" ++ k →
      countOf (SessionUser.cancel_enrollment st e).counters.goals K
        = countOf st.counters.goals K) ∧
    (SessionUser.cancel_enrollment st e).registry = st.registry ∧
    (SessionUser.cancel_enrollment st e).db = st.db ∧
    (SessionUser.cancel_enrollment st e).verifyHuman = st.verifyHuman ∧
    (SessionUser.cancel_enrollment st e).session.goals = st.session.goals ∧
    (SessionUser.cancel_enrollment st e).session.verifiedHuman
      = st.session.verifiedHuman ∧
    (SessionUser.cancel_enrollment st e).session.expSessionKey = some k ∧
    (∀ m, m ≠ n → mapLookup (SessionUser.cancel_enrollment
      st e).session.enrollments m = mapLookup st.session.enrollments m) ∧
    ((st.counters.goals.map Prod.fst).Nodup →
      (((SessionUser.cancel_enrollment st e).counters.goals).map Prod.fst).Nodup) := by
  have hEq : SessionUser.cancel_enrollment st e =
      { st with
        counters := remove_participant st.counters n alt ("session:" ++ k),
        session := { st.session with enrollments :=
          st.session.enrollments.filter (fun q => decide (q.1 ≠ n)) } } := by
    unfold SessionUser.cancel_enrollment SessionUser.get_enrollment
    rw [hen, hl]
    simp only [truthy, if_neg hne]
    rw [participant_identifier_materialized _ _ hk]
  have hc : (SessionUser.cancel_enrollment st e).counters
      = remove_participant st.counters n alt ("session:" ++ k) := by rw [hEq]
  have hs : (SessionUser.cancel_enrollment st e).session.enrollments
      = st.session.enrollments.filter (fun q => decide (q.1 ≠ n)) := by rw [hEq]
  refine ⟨?_, ?_, ?_, ?_, ?_, by rw [hEq], by rw [hEq], by rw [hEq], by rw [hEq],
    by rw [hEq], by rw [hEq]; exact hk, ?_, ?_⟩
  · rw [hs]
    exact mapLookup_filterOut_self _ _
  · rw [hc]
    simp only [remove_participant]
    exact countOf_removeAll_of _ _ _ (by simp)
  · intro g
    rw [hc]
    simp only [remove_participant]
    exact countOf_removeAll_of _ _ _ (by simp)
  · intro K hK
    rw [hc]
    simp only [remove_participant]
    refine countOf_removeAll_of_not _ _ _ ?_
    obtain ⟨k1, k2, k3⟩ := K
    simp only [ne_eq] at hK
    simp only [decide_eq_false_iff_not, ne_eq, Prod.mk.injEq, not_and]
    tauto
  · intro K hK
    rw [hc]
    simp only [remove_participant]
    refine countOf_removeAll_of_not _ _ _ ?_
    obtain ⟨k1, k2, k3, k4⟩ := K
    simp only [ne_eq] at hK
    rcases hK with h | h <;> simp [h]
  · intro m hm
    rw [hs]
    exact mapLookup_filterOut_ne _ hm
  · intro hnd
    rw [hc]
    simp only [remove_participant]
    exact nodup_keys_removeAll _ _ hnd

theorem incorporateAdopt_facts (st : State) (pk : Nat) (exp : Experiment)
    (alt k : String) (hk : st.session.expSessionKey = some k) :
    (WebUser.incorporateAdopt st pk exp alt).registry = st.registry ∧
    (WebUser.incorporateAdopt st pk exp alt).session = st.session ∧
    (WebUser.incorporateAdopt st pk exp alt).verifyHuman = st.verifyHuman ∧
    (∀ pk2 m, m ≠ exp.name →
      dbLookup (WebUser.incorporateAdopt st pk exp alt).db pk2 m
        = dbLookup st.db pk2 m) ∧
    (∀ K : PKey, K.1 ≠ exp.name ∨
        K.2.2 ≠ AuthenticatedUser.participant_identifier pk →
      countOf (WebUser.incorporateAdopt st pk exp alt).counters.participants K
        = countOf st.counters.participants K) ∧
    (∀ K : GKey, K.1 ≠ exp.name ∨
        K.2.2.2 ≠ AuthenticatedUser.participant_identifier pk →
      countOf (WebUser.incorporateAdopt st pk exp alt).counters.goals K
        = countOf st.counters.goals K) ∧
    ((st.counters.goals.map Prod.fst).Nodup →
      ((WebUser.incorporateAdopt st pk exp alt).counters.goals.map Prod.fst).Nodup) ∧
    (dbLookup st.db pk exp.name = none →
      dbLookup (WebUser.incorporateAdopt st pk exp alt).db pk exp.name = some alt ∧
      countOf (WebUser.incorporateAdopt st pk exp alt).counters.participants
          (exp.name, alt, AuthenticatedUser.participant_identifier pk)
        = countOf st.counters.participants
            (exp.name, alt, AuthenticatedUser.participant_identifier pk) + 1) ∧
    ((st.counters.goals.map Prod.fst).Nodup →
      ∀ g, countOf (WebUser.incorporateAdopt st pk exp alt).counters.goals
        (exp.name, alt, g, AuthenticatedUser.participant_identifier pk)
      = countOf st.counters.goals
          (exp.name, alt, g, AuthenticatedUser.participant_identifier pk)
        + countOf st.counters.goals (exp.name, alt, g, "session:" ++ k)) := by
  obtain ⟨f1, f2, f3, f4, f5, f6, f7⟩ := auth_set_enrollment_frame st pk exp alt
  have hA : WebUser.incorporateAdopt st pk exp alt
      = (participant_goal_frequencies
          (AuthenticatedUser.set_enrollment st pk exp alt none).counters
          exp.name alt ("session:" ++ k)).foldl
          (WebUser.transferGoal exp.name alt pk)
          { AuthenticatedUser.set_enrollment st pk exp alt none with
            session := st.session } := by
    simp only [WebUser.incorporateAdopt]
    rw [f2, participant_identifier_materialized _ _ hk]
  obtain ⟨t1, t2, t3, t4, t5, t6⟩ := transfer_fold_state
    (participant_goal_frequencies
      (AuthenticatedUser.set_enrollment st pk exp alt none).counters
      exp.name alt ("session:" ++ k))
    { AuthenticatedUser.set_enrollment st pk exp alt none with
      session := st.session }
    exp.name alt pk
  have hMg : ({ AuthenticatedUser.set_enrollment st pk exp alt none with
      session := st.session } : State).counters.goals = st.counters.goals := f7
  have hF : participant_goal_frequencies
      (AuthenticatedUser.set_enrollment st pk exp alt none).counters
      exp.name alt ("session:" ++ k)
      = goalFreqList st.counters.goals exp.name alt ("session:" ++ k) := by
    unfold participant_goal_frequencies
    rw [f7]
  rw [hA]
  refine ⟨t1.trans f1, t3, t4.trans f3, ?_, ?_, ?_, ?_, ?_, ?_⟩
  · intro pk2 m hm
    rw [t2]
    exact f4 pk2 m hm
  · intro K hK
    rw [t5]
    rcases hK with h | h
    · exact f5 K h
    · exact f6 K h
  · intro K hK
    rw [t6, hMg, hF]
    rw [countOf_transfer_fold_ne _ _ _ _ _ _ (by tauto)]
  · intro hndG
    rw [t6, hMg, hF]
    exact nodup_transfer_fold _ _ _ _ _ hndG
  · intro hdb
    obtain ⟨i1, i2⟩ := auth_set_enrollment_insert st pk exp alt hdb
    constructor
    · rw [t2]
      exact i1
    · rw [t5]
      exact i2
  · intro hndG g
    rw [t6, hMg, hF, countOf_transfer_fold, sumCount_goalFreqList _ _ _ _ _ hndG]

theorem cancel_enrollment_noop (st : State) (e : Experiment)
    (h : truthy (mapLookup st.session.enrollments e.name) = none) :
    SessionUser.cancel_enrollment st e = st := by
  unfold SessionUser.cancel_enrollment SessionUser.get_enrollment
  rw [h]

/-- `_cancel_enrollment` touches only the experiment's own keys: composed with
any prior state transition that also stays away from experiment `p1`, the
far-from-`p1` observables survive. -/
theorem cancel_preserves_frame (M st : State) (exp : Experiment) (p1 k : String)
    (hen : exp.name = p1)
    (hk : st.session.expSessionKey = some k)
    (h1 : M.registry = st.registry) (h2 : M.verifyHuman = st.verifyHuman)
    (h3 : M.session = st.session)
    (h4 : ∀ pk2 m, m ≠ p1 → dbLookup M.db pk2 m = dbLookup st.db pk2 m)
    (h5 : ∀ K : PKey, K.1 ≠ p1 →
      countOf M.counters.participants K = countOf st.counters.participants K)
    (h6 : ∀ K : GKey, K.1 ≠ p1 →
      countOf M.counters.goals K = countOf st.counters.goals K)
    (h7 : (st.counters.goals.map Prod.fst).Nodup →
      (M.counters.goals.map Prod.fst).Nodup) :
    (SessionUser.cancel_enrollment M exp).registry = st.registry ∧
    (SessionUser.cancel_enrollment M exp).verifyHuman = st.verifyHuman ∧
    (SessionUser.cancel_enrollment M exp).session.goals = st.session.goals ∧
    (SessionUser.cancel_enrollment M exp).session.verifiedHuman
      = st.session.verifiedHuman ∧
    (SessionUser.cancel_enrollment M exp).session.expSessionKey = some k ∧
    (∀ pk2 m, m ≠ p1 → dbLookup (SessionUser.cancel_enrollment M exp).db pk2 m
      = dbLookup st.db pk2 m) ∧
    (∀ K : PKey, K.1 ≠ p1 →
      countOf (SessionUser.cancel_enrollment M exp).counters.participants K
        = countOf st.counters.participants K) ∧
    (∀ K : GKey, K.1 ≠ p1 →
      countOf (SessionUser.cancel_enrollment M exp).counters.goals K
        = countOf st.counters.goals K) ∧
    (∀ m, m ≠ p1 → mapLookup (SessionUser.cancel_enrollment
        M exp).session.enrollments m = mapLookup st.session.enrollments m) ∧
    ((st.counters.goals.map Prod.fst).Nodup →
      ((SessionUser.cancel_enrollment M exp).counters.goals.map Prod.fst).Nodup) := by
  have hkM : M.session.expSessionKey = some k := by rw [h3]; exact hk
  match h_c : truthy (mapLookup M.session.enrollments exp.name) with
  | none =>
    have hno : SessionUser.cancel_enrollment M exp = M := cancel_enrollment_noop M exp h_c
    rw [hno]
    refine ⟨h1, h2, by rw [h3], by rw [h3], hkM, h4, h5, h6, ?_, h7⟩
    intro m _
    rw [h3]
  | some alt1 =>
    obtain ⟨hl0, hne1⟩ := truthy_eq_some h_c
    have hl1 : mapLookup M.session.enrollments p1 = some alt1 := by
      rw [← hen]; exact hl0
    obtain ⟨c1, c2, c3, c4, c5, c6, c7, c8, c9, c10, c11, c12, c13⟩ :=
      cancel_enrollment_effects M exp p1 alt1 k hen hkM hl1 hne1
    refine ⟨c6.trans h1, c8.trans h2, c9.trans (by rw [h3]), c10.trans (by rw [h3]),
      c11, ?_, ?_, ?_, ?_, fun hnd => c13 (h7 hnd)⟩
    · intro pk2 m hm
      rw [c7]
      exact h4 pk2 m hm
    · intro K hK
      rw [c4 K (Or.inl hK)]
      exact h5 K hK
    · intro K hK
      rw [c5 K (Or.inl hK)]
      exact h6 K hK
    · intro m hm
      rw [c12 m hm, h3]

theorem incorporateVisit_frame (st : State) (pk : Nat) (p1 p2 k : String)
    (hk : st.session.expSessionKey = some k) :
    (WebUser.incorporateVisit st pk p1 p2).registry = st.registry ∧
    (WebUser.incorporateVisit st pk p1 p2).verifyHuman = st.verifyHuman ∧
    (WebUser.incorporateVisit st pk p1 p2).session.goals = st.session.goals ∧
    (WebUser.incorporateVisit st pk p1 p2).session.verifiedHuman
      = st.session.verifiedHuman ∧
    (WebUser.incorporateVisit st pk p1 p2).session.expSessionKey = some k ∧
    (∀ pk2 m, m ≠ p1 →
      dbLookup (WebUser.incorporateVisit st pk p1 p2).db pk2 m
        = dbLookup st.db pk2 m) ∧
    (∀ K : PKey, K.1 ≠ p1 →
      countOf (WebUser.incorporateVisit st pk p1 p2).counters.participants K
        = countOf st.counters.participants K) ∧
    (∀ K : GKey, K.1 ≠ p1 →
      countOf (WebUser.incorporateVisit st pk p1 p2).counters.goals K
        = countOf st.counters.goals K) ∧
    (∀ m, m ≠ p1 → mapLookup (WebUser.incorporateVisit
        st pk p1 p2).session.enrollments m = mapLookup st.session.enrollments m) ∧
    ((st.counters.goals.map Prod.fst).Nodup →
      ((WebUser.incorporateVisit st pk p1 p2).counters.goals.map Prod.fst).Nodup) := by
  unfold WebUser.incorporateVisit
  match hreg : experimentManagerGet st.registry p1 with
  | none =>
    exact ⟨rfl, rfl, rfl, rfl, hk, fun _ _ _ => rfl, fun _ _ => rfl, fun _ _ => rfl,
      fun _ _ => rfl, id⟩
  | some exp =>
    have hen : exp.name = p1 := experimentManagerGet_name _ _ _ hreg
    match h_t : truthy (AuthenticatedUser.get_enrollment st pk exp) with
    | some a =>
      simp only [h_t]
      exact cancel_preserves_frame st st exp p1 k hen hk rfl rfl rfl
        (fun _ _ _ => rfl) (fun _ _ => rfl) (fun _ _ => rfl) id
    | none =>
      simp only [h_t]
      obtain ⟨a1, a2, a3, a4, a5, a6, a7, -, -⟩ :=
        incorporateAdopt_facts st pk exp p2 k hk
      exact cancel_preserves_frame (WebUser.incorporateAdopt st pk exp p2) st exp
        p1 k hen hk a1 a3 a2
        (fun pk2 m hm => a4 pk2 m (by rw [hen]; exact hm))
        (fun K hK => a5 K (Or.inl (by rw [hen]; exact hK)))
        (fun K hK => a6 K (Or.inl (by rw [hen]; exact hK)))
        a7

theorem incorporateVisit_self (st : State) (pk : Nat) (n alt k : String)
    (e : Experiment)
    (hreg : experimentManagerGet st.registry n = some e)
    (hk : st.session.expSessionKey = some k)
    (hl : mapLookup st.session.enrollments n = some alt) (hne : alt ≠ "")
    (hndG : (st.counters.goals.map Prod.fst).Nodup) :
    (WebUser.incorporateVisit st pk n alt).registry = st.registry ∧
    (WebUser.incorporateVisit st pk n alt).session.expSessionKey = some k ∧
    mapLookup (WebUser.incorporateVisit st pk n alt).session.enrollments n
      = none ∧
    countOf (WebUser.incorporateVisit st pk n alt).counters.participants
      (n, alt, "session:" ++ k) = 0 ∧
    (∀ g, countOf (WebUser.incorporateVisit st pk n alt).counters.goals
      (n, alt, g, "session:" ++ k) = 0) ∧
    (dbLookup st.db pk n = none →
      dbLookup (WebUser.incorporateVisit st pk n alt).db pk n = some alt ∧
      countOf (WebUser.incorporateVisit st pk n alt).counters.participants
          (n, alt, AuthenticatedUser.participant_identifier pk)
        = countOf st.counters.participants
            (n, alt, AuthenticatedUser.participant_identifier pk) + 1 ∧
      (∀ g, countOf (WebUser.incorporateVisit st pk n alt).counters.goals
          (n, alt, g, AuthenticatedUser.participant_identifier pk)
        = countOf st.counters.goals
            (n, alt, g, AuthenticatedUser.participant_identifier pk)
          + countOf st.counters.goals (n, alt, g, "session:" ++ k))) ∧
    (∀ b, dbLookup st.db pk n = some b → b ≠ "" →
      dbLookup (WebUser.incorporateVisit st pk n alt).db pk n = some b ∧
      (∀ a2, countOf (WebUser.incorporateVisit st pk n alt).counters.participants
          (n, a2, AuthenticatedUser.participant_identifier pk)
        = countOf st.counters.participants
            (n, a2, AuthenticatedUser.participant_identifier pk)) ∧
      (∀ a2 g, countOf (WebUser.incorporateVisit st pk n alt).counters.goals
          (n, a2, g, AuthenticatedUser.participant_identifier pk)
        = countOf st.counters.goals
            (n, a2, g, AuthenticatedUser.participant_identifier pk))) := by
  have hen : e.name = n := experimentManagerGet_name _ _ _ hreg
  have huidtid : ∀ s : String,
      AuthenticatedUser.participant_identifier pk ≠ "session:" ++ s := by
    intro s
    exact user_id_ne_session_id (Nat.repr pk) s
  unfold WebUser.incorporateVisit
  rw [hreg]
  match h_t : truthy (AuthenticatedUser.get_enrollment st pk e) with
  | none =>
    simp only [h_t]
    obtain ⟨a1, a2, a3, a4, a5, a6, a7, a8, a9⟩ :=
      incorporateAdopt_facts st pk e alt k hk
    have hkA : (WebUser.incorporateAdopt st pk e alt).session.expSessionKey
        = some k := by rw [a2]; exact hk
    have hlA : mapLookup (WebUser.incorporateAdopt st pk e alt).session.enrollments
        n = some alt := by rw [a2]; exact hl
    obtain ⟨c1, c2, c3, c4, c5, c6, c7, c8, c9, c10, c11, c12, c13⟩ :=
      cancel_enrollment_effects (WebUser.incorporateAdopt st pk e alt) e n alt k
        hen hkA hlA hne
    refine ⟨c6.trans a1, c11, c1, c2, c3, ?_, ?_⟩
    · intro hdb
      have hdbe : dbLookup st.db pk e.name = none := by rw [hen]; exact hdb
      obtain ⟨i1, i2⟩ := a8 hdbe
      refine ⟨?_, ?_, ?_⟩
      · rw [c7, ← hen]
        exact i1
      · rw [c4 _ (Or.inr (huidtid k))]
        have := i2
        rw [hen] at this
        exact this
      · intro g
        rw [c5 _ (Or.inr (huidtid k))]
        have := a9 hndG g
        rw [hen] at this
        exact this
    · intro b hdb hb
      exfalso
      have : truthy (dbLookup st.db pk e.name) = none := h_t
      rw [hen, hdb] at this
      simp [truthy, hb] at this
  | some a =>
    simp only [h_t]
    obtain ⟨c1, c2, c3, c4, c5, c6, c7, c8, c9, c10, c11, c12, c13⟩ :=
      cancel_enrollment_effects st e n alt k hen hk hl hne
    refine ⟨c6, c11, c1, c2, c3, ?_, ?_⟩
    · intro hdb
      exfalso
      have : truthy (dbLookup st.db pk e.name) = some a := h_t
      rw [hen, hdb] at this
      simp [truthy] at this
    · intro b hdb hb
      refine ⟨?_, ?_, ?_⟩
      · rw [c7]
        exact hdb
      · intro a2
        exact c4 _ (Or.inr (huidtid k))
      · intro a2 g
        exact c5 _ (Or.inr (huidtid k))

theorem inc_fold_frame (L : List (String × String)) (st : State) (pk : Nat)
    (n k : String) (hk : st.session.expSessionKey = some k)
    (hL : ∀ p ∈ L, p.1 ≠ n) :
    (L.foldl (fun acc p => WebUser.incorporateVisit acc pk p.1 p.2) st).registry
      = st.registry ∧
    (L.foldl (fun acc p =>
      WebUser.incorporateVisit acc pk p.1 p.2) st).session.expSessionKey = some k ∧
    (∀ pk2, dbLookup (L.foldl (fun acc p =>
        WebUser.incorporateVisit acc pk p.1 p.2) st).db pk2 n
      = dbLookup st.db pk2 n) ∧
    (∀ K : PKey, K.1 = n →
      countOf (L.foldl (fun acc p =>
          WebUser.incorporateVisit acc pk p.1 p.2) st).counters.participants K
        = countOf st.counters.participants K) ∧
    (∀ K : GKey, K.1 = n →
      countOf (L.foldl (fun acc p =>
          WebUser.incorporateVisit acc pk p.1 p.2) st).counters.goals K
        = countOf st.counters.goals K) ∧
    mapLookup (L.foldl (fun acc p =>
        WebUser.incorporateVisit acc pk p.1 p.2) st).session.enrollments n
      = mapLookup st.session.enrollments n ∧
    ((st.counters.goals.map Prod.fst).Nodup →
      ((L.foldl (fun acc p =>
        WebUser.incorporateVisit acc pk p.1 p.2) st).counters.goals.map
          Prod.fst).Nodup) := by
  induction L generalizing st with
  | nil =>
    exact ⟨rfl, hk, fun _ => rfl, fun _ _ => rfl, fun _ _ => rfl, rfl, id⟩
  | cons p t ih =>
    simp only [List.foldl_cons]
    have hpn : p.1 ≠ n := hL p (List.mem_cons_self p t)
    obtain ⟨v1, v2, v3, v4, v5, v6, v7, v8, v9, v10⟩ :=
      incorporateVisit_frame st pk p.1 p.2 k hk
    obtain ⟨i1, i2, i3, i4, i5, i6, i7⟩ :=
      ih (WebUser.incorporateVisit st pk p.1 p.2) v5
        (fun q hq => hL q (List.mem_cons_of_mem p hq))
    refine ⟨i1.trans v1, i2, ?_, ?_, ?_, ?_, ?_⟩
    · intro pk2
      rw [i3 pk2]
      exact v6 pk2 n (Ne.symm hpn)
    · intro K hK
      rw [i4 K hK]
      exact v7 K (by rw [hK]; exact Ne.symm hpn)
    · intro K hK
      rw [i5 K hK]
      exact v8 K (by rw [hK]; exact Ne.symm hpn)
    · rw [i6]
      exact v9 n (Ne.symm hpn)
    · intro hnd
      exact i7 (v10 hnd)

theorem mapLookup_of_mem_nodup (l : List (String × String)) (n v : String)
    (hmem : (n, v) ∈ l) (hnd : (l.map Prod.fst).Nodup) : mapLookup l n = some v := by
  induction l with
  | nil => simp at hmem
  | cons p t ih =>
    simp only [List.map_cons, List.nodup_cons] at hnd
    rcases List.mem_cons.mp hmem with heq | hmemt
    · rw [← heq]
      simp [mapLookup]
    · have hpn : p.1 ≠ n := by
        intro hc
        apply hnd.1
        rw [hc]
        exact List.mem_map_of_mem Prod.fst hmemt
      obtain ⟨k0, w⟩ := p
      simp only [mapLookup, if_neg hpn]
      exact ih hmemt hnd.2

/-- Combined consequences of a full `incorporate` run for one enrollment
`(n, alt)` held by the transient identity (keys without duplicates, session
key materialized, registered experiment, truthy variant). -/
theorem incorporate_enrollment_facts (st : State) (pk : Nat) (n alt k : String)
    (e : Experiment)
    (hk : st.session.expSessionKey = some k)
    (hndE : (st.session.enrollments.map Prod.fst).Nodup)
    (hndG : (st.counters.goals.map Prod.fst).Nodup)
    (hmem : (n, alt) ∈ st.session.enrollments)
    (hne : alt ≠ "")
    (hreg : experimentManagerGet st.registry n = some e) :
    mapLookup (WebUser.incorporate st pk).session.enrollments n = none ∧
    countOf (WebUser.incorporate st pk).counters.participants
      (n, alt, "session:" ++ k) = 0 ∧
    (∀ g, countOf (WebUser.incorporate st pk).counters.goals
      (n, alt, g, "session:" ++ k) = 0) ∧
    (dbLookup st.db pk n = none →
      dbLookup (WebUser.incorporate st pk).db pk n = some alt ∧
      countOf (WebUser.incorporate st pk).counters.participants
          (n, alt, AuthenticatedUser.participant_identifier pk)
        = countOf st.counters.participants
            (n, alt, AuthenticatedUser.participant_identifier pk) + 1 ∧
      (∀ g, countOf (WebUser.incorporate st pk).counters.goals
          (n, alt, g, AuthenticatedUser.participant_identifier pk)
        = countOf st.counters.goals
            (n, alt, g, AuthenticatedUser.participant_identifier pk)
          + countOf st.counters.goals (n, alt, g, "session:" ++ k))) ∧
    (∀ b, dbLookup st.db pk n = some b → b ≠ "" →
      dbLookup (WebUser.incorporate st pk).db pk n = some b ∧
      (∀ a2, countOf (WebUser.incorporate st pk).counters.participants
          (n, a2, AuthenticatedUser.participant_identifier pk)
        = countOf st.counters.participants
            (n, a2, AuthenticatedUser.participant_identifier pk)) ∧
      (∀ a2 g, countOf (WebUser.incorporate st pk).counters.goals
          (n, a2, g, AuthenticatedUser.participant_identifier pk)
        = countOf st.counters.goals
            (n, a2, g, AuthenticatedUser.participant_identifier pk))) := by
  obtain ⟨L1, L2, hsplit⟩ := List.append_of_mem hmem
  have hIncEq : WebUser.incorporate st pk
      = L2.foldl (fun acc p => WebUser.incorporateVisit acc pk p.1 p.2)
          (WebUser.incorporateVisit
            (L1.foldl (fun acc p => WebUser.incorporateVisit acc pk p.1 p.2) st)
            pk n alt) := by
    unfold WebUser.incorporate
    rw [hsplit, List.foldl_append, List.foldl_cons]
  have hndE2 : ((L1 ++ (n, alt) :: L2).map Prod.fst).Nodup := by
    rw [← hsplit]; exact hndE
  simp only [List.map_append, List.map_cons, List.nodup_append, List.nodup_cons,
    List.disjoint_cons_right] at hndE2
  have hn1 : ∀ p ∈ L1, p.1 ≠ n := by
    intro p hp hc
    exact hndE2.2.2.1 (hc ▸ List.mem_map_of_mem Prod.fst hp)
  have hn2 : ∀ p ∈ L2, p.1 ≠ n := by
    intro p hp hc
    apply hndE2.2.1.1
    rw [← hc]
    exact List.mem_map_of_mem Prod.fst hp
  obtain ⟨f1, f2, f3, f4, f5, f6, f7⟩ := inc_fold_frame L1 st pk n k hk hn1
  have hl : mapLookup st.session.enrollments n = some alt :=
    mapLookup_of_mem_nodup _ _ _ hmem hndE
  have hreg1 : experimentManagerGet
      (L1.foldl (fun acc p => WebUser.incorporateVisit acc pk p.1 p.2) st).registry n
      = some e := by rw [f1]; exact hreg
  have hl1 : mapLookup
      (L1.foldl (fun acc p =>
        WebUser.incorporateVisit acc pk p.1 p.2) st).session.enrollments n
      = some alt := by rw [f6]; exact hl
  obtain ⟨s1, s2, s3, s4, s5, s6, s7⟩ :=
    incorporateVisit_self
      (L1.foldl (fun acc p => WebUser.incorporateVisit acc pk p.1 p.2) st)
      pk n alt k e hreg1 f2 hl1 hne (f7 hndG)
  obtain ⟨g1, g2, g3, g4, g5, g6, g7⟩ :=
    inc_fold_frame L2
      (WebUser.incorporateVisit
        (L1.foldl (fun acc p => WebUser.incorporateVisit acc pk p.1 p.2) st)
        pk n alt) pk n k s2 hn2
  rw [hIncEq]
  refine ⟨?_, ?_, ?_, ?_, ?_⟩
  · rw [g6]; exact s3
  · rw [g4 _ rfl]; exact s4
  · intro g
    rw [g5 _ rfl]; exact s5 g
  · intro hdb
    have hdb1 : dbLookup
        (L1.foldl (fun acc p => WebUser.incorporateVisit acc pk p.1 p.2) st).db pk n
        = none := by rw [f3]; exact hdb
    obtain ⟨d1, d2, d3⟩ := s6 hdb1
    refine ⟨?_, ?_, ?_⟩
    · rw [g3]; exact d1
    · rw [g4 _ rfl, d2, f4 _ rfl]
    · intro g
      rw [g5 _ rfl, d3 g, f5 _ rfl, f5 _ rfl]
  · intro b hdb hb
    have hdb1 : dbLookup
        (L1.foldl (fun acc p => WebUser.incorporateVisit acc pk p.1 p.2) st).db pk n
        = some b := by rw [f3]; exact hdb
    obtain ⟨d1, d2, d3⟩ := s7 b hdb1 hb
    refine ⟨?_, ?_, ?_⟩
    · rw [g3]; exact d1
    · intro a2
      rw [g4 _ rfl, d2 a2, f4 _ rfl]
    · intro a2 g
      rw [g5 _ rfl, d3 a2 g, f5 _ rfl]

/-! ### Claim C1 -/

/-- C1: for `incorporate(durable, transient)` and each (experiment, variant)
enrollment `(n, alt)` held by the transient identity (registered experiment,
truthy variant, duplicate-free session/counter keys, materialized session
key): if the durable identity has no enrollment in that experiment, after
`incorporate` the durable row holds the transient's variant with a fresh
participant-count increment under the durable stable id, and every goal count
the transient had accumulated for that (experiment, variant) is added to the
counters under the durable stable id with the exact same count; if the durable
identity already has a (truthy) enrollment, its variant is unchanged and no
goal counts are transferred to the durable stable id. -/
theorem c1_incorporate_adopt_or_discard (st : State) (pk : Nat)
    (n alt k : String) (e : Experiment)
    (hk : st.session.expSessionKey = some k)
    (hndE : (st.session.enrollments.map Prod.fst).Nodup)
    (hndG : (st.counters.goals.map Prod.fst).Nodup)
    (hmem : (n, alt) ∈ st.session.enrollments)
    (hne : alt ≠ "")
    (hreg : experimentManagerGet st.registry n = some e) :
    (dbLookup st.db pk n = none →
      dbLookup (WebUser.incorporate st pk).db pk n = some alt ∧
      countOf (WebUser.incorporate st pk).counters.participants
          (n, alt, AuthenticatedUser.participant_identifier pk)
        = countOf st.counters.participants
            (n, alt, AuthenticatedUser.participant_identifier pk) + 1 ∧
      (∀ g, countOf (WebUser.incorporate st pk).counters.goals
          (n, alt, g, AuthenticatedUser.participant_identifier pk)
        = countOf st.counters.goals
            (n, alt, g, AuthenticatedUser.participant_identifier pk)
          + countOf st.counters.goals (n, alt, g, "session:" ++ k))) ∧
    (∀ b, dbLookup st.db pk n = some b → b ≠ "" →
      dbLookup (WebUser.incorporate st pk).db pk n = some b ∧
      (∀ a2, countOf (WebUser.incorporate st pk).counters.participants
          (n, a2, AuthenticatedUser.participant_identifier pk)
        = countOf st.counters.participants
            (n, a2, AuthenticatedUser.participant_identifier pk)) ∧
      (∀ a2 g, countOf (WebUser.incorporate st pk).counters.goals
          (n, a2, g, AuthenticatedUser.participant_identifier pk)
        = countOf st.counters.goals
            (n, a2, g, AuthenticatedUser.participant_identifier pk))) := by
  obtain ⟨-, -, -, h4, h5⟩ :=
    incorporate_enrollment_facts st pk n alt k e hk hndE hndG hmem hne hreg
  exact ⟨h4, h5⟩

/-! ### Claim C6 -/

/-- C6: after `incorporate(durable, transient)` completes, for every
(registered, truthy-variant) enrollment the transient identity held, the
transient identity's enrollment entry has been removed from its session and
its counter contributions under the transient stable id (participant count and
goal counts for the enrolled variant) are removed, so the transient identity
retains no residual experiment state whether or not the durable identity
adopted the enrollment. -/
theorem c6_incorporate_clears_transient (st : State) (pk : Nat)
    (n alt k : String) (e : Experiment)
    (hk : st.session.expSessionKey = some k)
    (hndE : (st.session.enrollments.map Prod.fst).Nodup)
    (hndG : (st.counters.goals.map Prod.fst).Nodup)
    (hmem : (n, alt) ∈ st.session.enrollments)
    (hne : alt ≠ "")
    (hreg : experimentManagerGet st.registry n = some e) :
    mapLookup (WebUser.incorporate st pk).session.enrollments n = none ∧
    countOf (WebUser.incorporate st pk).counters.participants
      (n, alt, "session:" ++ k) = 0 ∧
    (∀ g, countOf (WebUser.incorporate st pk).counters.goals
      (n, alt, g, "session:" ++ k) = 0) := by
  obtain ⟨h1, h2, h3, -, -⟩ :=
    incorporate_enrollment_facts st pk n alt k e hk hndE hndG hmem hne hreg
  exact ⟨h1, h2, h3⟩

/-- Second displaying experiment for the merge fixtures. -/
def wExp2 : Experiment := ⟨"exp2", true, true, "varB", ["control", "varB", "varC"]⟩

/-- Transient identity enrolled in both experiments, with accumulated goal
counts for (exp1, varA) under its stable id. -/
def wSessionMerge : Session :=
  ⟨[("exp1", "varA"), ("exp2", "varC")], [], true, some "KEY", some "KEY", "K"⟩

def wStateMerge : State :=
  ⟨[wExp, wExp2],
   ⟨[(("exp1", "varA", "session:KEY"), 1), (("exp2", "varC", "session:KEY"), 1)],
    [(("exp1", "varA", "signup", "session:KEY"), 2),
     (("exp1", "varA", "purchase", "session:KEY"), 1)]⟩,
   [((7, "exp2"), "varB")], wSessionMerge, true⟩

theorem c1_incorporate_adopt_or_discard_witness :
    wStateMerge.session.expSessionKey = some "KEY" ∧
    (wStateMerge.session.enrollments.map Prod.fst).Nodup ∧
    (wStateMerge.counters.goals.map Prod.fst).Nodup ∧
    ("exp1", "varA") ∈ wStateMerge.session.enrollments ∧
    ("exp2", "varC") ∈ wStateMerge.session.enrollments ∧
    experimentManagerGet wStateMerge.registry "exp1" = some wExp ∧
    experimentManagerGet wStateMerge.registry "exp2" = some wExp2 ∧
    dbLookup wStateMerge.db 7 "exp1" = none ∧
    dbLookup wStateMerge.db 7 "exp2" = some "varB" ∧
    dbLookup (WebUser.incorporate wStateMerge 7).db 7 "exp1" = some "varA" ∧
    countOf (WebUser.incorporate wStateMerge 7).counters.participants
        ("exp1", "varA", AuthenticatedUser.participant_identifier 7)
      = countOf wStateMerge.counters.participants
          ("exp1", "varA", AuthenticatedUser.participant_identifier 7) + 1 ∧
    countOf (WebUser.incorporate wStateMerge 7).counters.goals
        ("exp1", "varA", "signup", AuthenticatedUser.participant_identifier 7)
      = countOf wStateMerge.counters.goals
          ("exp1", "varA", "signup", AuthenticatedUser.participant_identifier 7)
        + countOf wStateMerge.counters.goals
            ("exp1", "varA", "signup", "session:" ++ "KEY") ∧
    countOf (WebUser.incorporate wStateMerge 7).counters.goals
        ("exp1", "varA", "purchase", AuthenticatedUser.participant_identifier 7)
      = countOf wStateMerge.counters.goals
          ("exp1", "varA", "purchase", AuthenticatedUser.participant_identifier 7)
        + countOf wStateMerge.counters.goals
            ("exp1", "varA", "purchase", "session:" ++ "KEY") ∧
    dbLookup (WebUser.incorporate wStateMerge 7).db 7 "exp2" = some "varB" ∧
    countOf (WebUser.incorporate wStateMerge 7).counters.participants
        ("exp2", "varC", AuthenticatedUser.participant_identifier 7)
      = countOf wStateMerge.counters.participants
          ("exp2", "varC", AuthenticatedUser.participant_identifier 7) ∧
    countOf (WebUser.incorporate wStateMerge 7).counters.goals
        ("exp2", "varC", "signup", AuthenticatedUser.participant_identifier 7)
      = countOf wStateMerge.counters.goals
          ("exp2", "varC", "signup", AuthenticatedUser.participant_identifier 7) := by
  have hk : wStateMerge.session.expSessionKey = some "KEY" := rfl
  have hndE : (wStateMerge.session.enrollments.map Prod.fst).Nodup := by decide
  have hndG : (wStateMerge.counters.goals.map Prod.fst).Nodup := by decide
  have hmem1 : ("exp1", "varA") ∈ wStateMerge.session.enrollments := by decide
  have hmem2 : ("exp2", "varC") ∈ wStateMerge.session.enrollments := by decide
  have hreg1 : experimentManagerGet wStateMerge.registry "exp1" = some wExp := by
    decide
  have hreg2 : experimentManagerGet wStateMerge.registry "exp2" = some wExp2 := by
    decide
  have hdb1 : dbLookup wStateMerge.db 7 "exp1" = none := by decide
  have hdb2 : dbLookup wStateMerge.db 7 "exp2" = some "varB" := by decide
  have h1 := (c1_incorporate_adopt_or_discard wStateMerge 7 "exp1" "varA" "KEY" wExp
    hk hndE hndG hmem1 (by decide) hreg1).1 hdb1
  have h2 := (c1_incorporate_adopt_or_discard wStateMerge 7 "exp2" "varC" "KEY" wExp2
    hk hndE hndG hmem2 (by decide) hreg2).2 "varB" hdb2 (by decide)
  exact ⟨hk, hndE, hndG, hmem1, hmem2, hreg1, hreg2, hdb1, hdb2, h1.1, h1.2.1,
    h1.2.2 "signup", h1.2.2 "purchase", h2.1, h2.2.1 "varC", h2.2.2 "varC" "signup"⟩

theorem c6_incorporate_clears_transient_witness :
    wStateMerge.session.expSessionKey = some "KEY" ∧
    ("exp1", "varA") ∈ wStateMerge.session.enrollments ∧
    ("exp2", "varC") ∈ wStateMerge.session.enrollments ∧
    mapLookup (WebUser.incorporate wStateMerge 7).session.enrollments "exp1"
      = none ∧
    countOf (WebUser.incorporate wStateMerge 7).counters.participants
      ("exp1", "varA", "session:" ++ "KEY") = 0 ∧
    countOf (WebUser.incorporate wStateMerge 7).counters.goals
      ("exp1", "varA", "signup", "session:" ++ "KEY") = 0 ∧
    countOf (WebUser.incorporate wStateMerge 7).counters.goals
      ("exp1", "varA", "purchase", "session:" ++ "KEY") = 0 ∧
    mapLookup (WebUser.incorporate wStateMerge 7).session.enrollments "exp2"
      = none ∧
    countOf (WebUser.incorporate wStateMerge 7).counters.participants
      ("exp2", "varC", "session:" ++ "KEY") = 0 := by
  have hk : wStateMerge.session.expSessionKey = some "KEY" := rfl
  have hndE : (wStateMerge.session.enrollments.map Prod.fst).Nodup := by decide
  have hndG : (wStateMerge.counters.goals.map Prod.fst).Nodup := by decide
  have hmem1 : ("exp1", "varA") ∈ wStateMerge.session.enrollments := by decide
  have hmem2 : ("exp2", "varC") ∈ wStateMerge.session.enrollments := by decide
  have hreg1 : experimentManagerGet wStateMerge.registry "exp1" = some wExp := by
    decide
  have hreg2 : experimentManagerGet wStateMerge.registry "exp2" = some wExp2 := by
    decide
  have h1 := c6_incorporate_clears_transient wStateMerge 7 "exp1" "varA" "KEY" wExp
    hk hndE hndG hmem1 (by decide) hreg1
  have h2 := c6_incorporate_clears_transient wStateMerge 7 "exp2" "varC" "KEY" wExp2
    hk hndE hndG hmem2 (by decide) hreg2
  exact ⟨hk, hmem1, hmem2, h1.1, h1.2.1, h1.2.2 "signup", h1.2.2 "purchase",
    h2.1, h2.2.1⟩
